import Mathlib

/-!
# WLED bus manager (wled00/bus_manager.h)

A shallow embedding of `BusConfig`, the three `Bus` variants (`BusDigital`,
`BusPwm`, `BusNetwork`) and `BusManager`, followed by theorems about them.

Conventions
* `uint8_t`, `uint16_t` and `uint32_t` values are natural numbers; every place
  where the C++ code stores an `int` expression into a narrower unsigned
  variable is written with an explicit `% 256`, `% 65536` or `% 4294967296`.
  Comparisons such as `pix >= bstart + b->getLength()` are evaluated in `int`
  (no wrap-around), exactly as integer promotion does on the 32-bit targets.
* Objects reached through pointers are owned values; a null pointer is `none`.
* `BusManager` keeps the live prefix `busses[0 .. numBusses)` of its array as a
  list, so `numBusses` is the length of that list.
* Code that is selected by `#ifdef ESP8266` is selected by `Platform.esp8266`.
-/

namespace WLED

/-! ## Constants of const.h and bus_wrapper.h -/

/-- Modelled from the spec: the constant TYPE_NONE of const.h, which is not among the sources. -/
def TYPE_NONE : Nat := 0
/-- Modelled from the spec: the constant TYPE_WS2812_RGB of const.h, which is not among the sources (single-wire RGB). -/
def TYPE_WS2812_RGB : Nat := 22
/-- Modelled from the spec: the constant TYPE_SK6812_RGBW of const.h, which is not among the sources. -/
def TYPE_SK6812_RGBW : Nat := 30
/-- Modelled from the spec: the constant TYPE_TM1814 of const.h, which is not among the sources. -/
def TYPE_TM1814 : Nat := 31
/-- Modelled from the spec: the constant TYPE_ONOFF of const.h, which is not among the sources. -/
def TYPE_ONOFF : Nat := 40
/-- Modelled from the spec: the constant TYPE_ANALOG_1CH of const.h, which is not among the sources. -/
def TYPE_ANALOG_1CH : Nat := 41
/-- Modelled from the spec: the constant TYPE_ANALOG_2CH of const.h, which is not among the sources. -/
def TYPE_ANALOG_2CH : Nat := 42
/-- Modelled from the spec: the constant TYPE_ANALOG_3CH of const.h, which is not among the sources. -/
def TYPE_ANALOG_3CH : Nat := 43
/-- Modelled from the spec: the constant TYPE_ANALOG_4CH of const.h, which is not among the sources. -/
def TYPE_ANALOG_4CH : Nat := 44
/-- Modelled from the spec: the constant TYPE_ANALOG_5CH of const.h, which is not among the sources. -/
def TYPE_ANALOG_5CH : Nat := 45
/-- Modelled from the spec: the constant TYPE_WS2801 of const.h, which is not among the sources (a dual-wire type). -/
def TYPE_WS2801 : Nat := 50
/-- Modelled from the spec: the constant TYPE_NET_DDP_RGB of const.h, which is not among the sources (first network type). -/
def TYPE_NET_DDP_RGB : Nat := 80
/-- Modelled from the spec: the constant COL_ORDER_GRB of const.h, which is not among the sources. -/
def COL_ORDER_GRB : Nat := 0
/-- Modelled from the spec: the constant COL_ORDER_RGB of const.h, which is not among the sources. -/
def COL_ORDER_RGB : Nat := 1
/-- Modelled from the spec: the constant I_NONE of bus_wrapper.h (not among the
sources), the driver-kind token for "no driver". -/
def I_NONE : Nat := 0

/-- Modelled from the spec: the macro IS_DIGITAL(t) of const.h (not among the
sources), `((t) & 0x10)`; digital types are 16-31 and 48-63. -/
def IS_DIGITAL (t : Nat) : Bool := (t &&& 0x10) != 0
/-- Modelled from the spec: the macro IS_PWM(t) of const.h (not among the
sources), `((t) > 40 && (t) < 46)`, as the `BusConfig` constructor spells it out. -/
def IS_PWM (t : Nat) : Bool := decide (t > 40) && decide (t < 46)
/-- Modelled from the spec: the macro NUM_PWM_PINS(t) of const.h (not among the
sources), `((t) - 40)`, the channel count of a PWM type, stored into a `uint8_t`. -/
def NUM_PWM_PINS (t : Nat) : Nat := (t + 256 - 40) % 256
/-- Modelled from the spec: the macro IS_2PIN(t) of const.h (not among the
sources), `((t) > 47)`, as the `BusConfig` constructor spells it out. -/
def IS_2PIN (t : Nat) : Bool := decide (t > 47)

/-- The macro GET_BIT(var,bit): `(((var)>>(bit))&0x01)`. -/
def GET_BIT (var bit : Nat) : Nat := (var >>> bit) &&& 0x01

/-! ## Collaborators that are not part of bus_manager.h -/

/-- Modelled from the spec: the owner tags of pin_manager.h (not among the
sources) that bus_manager.h passes to the ledger. -/
inductive PinOwner where
  | None
  | BusDigital
  | BusPwm
  | Other
  deriving DecidableEq, Repr

/-- Modelled from the spec: the addressable-protocol driver instance behind
`_busPtr` (bus_wrapper.h is not among the sources). It is a store that returns
the colour last written at a physical index with a colour order; `writes` holds
the writes `(index, colourOrder, colour)`, most recent first. `ready` is what
`canShow` reports and `bri` the brightness handed to the driver. -/
structure Driver where
  writes : List (Nat × Nat × Nat)
  ready : Bool
  bri : Nat
  deriving DecidableEq, Repr

/-- Platform constants (const.h) and the collaborators whose answers the bus
code only observes: the pin validity query of the resource ledger, the driver
factory `PolyBus::getI` / `PolyBus::create`, and `malloc`. -/
structure Platform where
  /-- whether `ESP8266` is defined (otherwise the ESP32 branch is compiled) -/
  esp8266 : Bool
  MAX_LEDS : Nat
  MAX_LEDS_PER_BUS : Nat
  WLED_MAX_BUSSES : Nat
  /-- the answer of `pinManager.isPinOk(gpio)` -/
  isPinOk : Nat → Bool
  /-- the driver-kind token `PolyBus::getI(type, pins, nr)`, `I_NONE` if none matches -/
  getI : Nat → List Nat → Nat → Nat
  /-- the new driver `PolyBus::create(iType, pins, len, nr)`, `none` for a null pointer -/
  create : Nat → List Nat → Nat → Nat → Option Driver
  /-- whether `malloc(size)` returns a non-null pointer -/
  malloc : Nat → Bool
  /-- the value read from a `bool` member that no constructor path initialised -/
  garbage : Bool

/-- Modelled from the spec: the resource ledger `pinManager` (pin_manager.h is
not among the sources). `claims` lists the claimed pins with their owner tag;
`ledc` is the pool of PWM channel slots of the ESP32 (`true` = reserved). -/
structure PinManager where
  claims : List (Nat × PinOwner)
  ledc : List Bool
  deriving DecidableEq, Repr

namespace PinManager

/-- Modelled from the spec: the owner tag of a pin, `PinOwner.None` when it is
not claimed. -/
def ownerOf (pm : PinManager) (gpio : Nat) : PinOwner :=
  match pm.claims.find? (fun cl => cl.1 == gpio) with
  | some cl => cl.2
  | none => PinOwner.None

/-- Modelled from the spec: the operation `isPinAllocated(gpio)`. -/
def isPinAllocated (pm : PinManager) (gpio : Nat) : Bool :=
  pm.claims.any (fun cl => cl.1 == gpio)

/-- Modelled from the spec: the operation `acquire(pinId, exclusive, ownerTag) -> bool`;
acquisition fails if the pin is not valid or is already claimed. -/
def allocatePin (P : Platform) (pm : PinManager) (gpio : Nat) (tag : PinOwner) :
    PinManager × Bool :=
  if !P.isPinOk gpio then (pm, false)
  else if pm.isPinAllocated gpio then (pm, false)
  else ({ pm with claims := (gpio, tag) :: pm.claims }, true)

/-- Modelled from the spec: the operation `release(pinId, ownerTag)`; releasing pin 255 or an
invalid pin does nothing, and a pin claimed under another tag is left alone. -/
def deallocatePin (P : Platform) (pm : PinManager) (gpio : Nat) (tag : PinOwner) :
    PinManager :=
  if gpio == 255 then pm
  else if !P.isPinOk gpio then pm
  else if pm.ownerOf gpio != PinOwner.None && pm.ownerOf gpio != tag then pm
  else { pm with claims := pm.claims.filter (fun cl => cl.1 != gpio) }

/-- Modelled from the spec: whether the channel slots `pos .. pos+n-1` of the
ledger's pool exist and are all free. -/
def ledcFree (ledc : List Bool) (pos n : Nat) : Bool :=
  (List.range n).all (fun j => ledc.getD (pos + j) true == false)

/-- Modelled from the spec: the ledger's pool with the channel slots
`pos .. pos+n-1` marked `v`. -/
def ledcMark (ledc : List Bool) (pos n : Nat) (v : Bool) : List Bool :=
  (List.range n).foldl (fun l j => l.set (pos + j) v) ledc

/-- Modelled from the spec: the operation `reserveChannelSlots(count) -> firstSlotId | none`;
the first free contiguous range is reserved, 255 means no range is free. -/
def allocateLedc (pm : PinManager) (channels : Nat) : PinManager × Nat :=
  match (List.range pm.ledc.length).find? (fun pos => ledcFree pm.ledc pos channels) with
  | some pos => ({ pm with ledc := ledcMark pm.ledc pos channels true }, pos)
  | none => (pm, 255)

/-- Modelled from the spec: the operation `releaseChannelSlots(firstSlotId, count)`. -/
def deallocateLedc (pm : PinManager) (pos channels : Nat) : PinManager :=
  { pm with ledc := ledcMark pm.ledc pos channels false }

end PinManager

/-! ## BusConfig -/

/-- The struct `BusConfig`. `pins` has five entries. -/
structure BusConfig where
  type : Nat
  count : Nat
  start : Nat
  colorOrder : Nat
  reversed : Bool
  skipAmount : Nat
  refreshReq : Bool
  pins : List Nat
  deriving DecidableEq, Repr

/-- The method `BusConfig::adjustBounds(uint16_t& total)`: the descriptor and `total` after
the call, and the returned flag. `count`, `start` and `total` are `uint16_t`;
the sums are computed in `int`. -/
def BusConfig.adjustBounds (P : Platform) (bc : BusConfig) (total : Nat) :
    BusConfig × Nat × Bool :=
  -- if (!count) count = 1;
  let bc := if bc.count = 0 then { bc with count := 1 } else bc
  -- if (count > MAX_LEDS_PER_BUS) count = MAX_LEDS_PER_BUS;
  let bc := if bc.count > P.MAX_LEDS_PER_BUS then
      { bc with count := P.MAX_LEDS_PER_BUS % 65536 } else bc
  -- if (start >= MAX_LEDS) return false;
  if bc.start ≥ P.MAX_LEDS then (bc, total, false)
  else
    -- if (start + count > MAX_LEDS) count = MAX_LEDS - start;
    let bc := if bc.start + bc.count > P.MAX_LEDS then
        { bc with count := (P.MAX_LEDS - bc.start) % 65536 } else bc
    -- if (start + count > total) total = start + count;
    let total := if bc.start + bc.count > total then (bc.start + bc.count) % 65536 else total
    (bc, total, true)

/-! ## class Bus and its three subclasses -/

/-- The data members of the parent class `Bus`, with their initial values. -/
structure BusBase where
  reversed : Bool := false
  _type : Nat := TYPE_NONE
  _bri : Nat := 255
  _start : Nat := 0
  _valid : Bool := false
  _needsRefresh : Bool := false
  deriving DecidableEq, Repr

/-- The class `BusDigital`. `_pins` has two entries; `_busPtr` owns the driver. -/
structure BusDigital extends BusBase where
  _colorOrder : Nat := COL_ORDER_GRB
  _pins : List Nat := [255, 255]
  _iType : Nat := I_NONE
  _len : Nat := 0
  _skip : Nat := 0
  _busPtr : Option Driver := none
  deriving DecidableEq, Repr

/-- The class `BusPwm`. `_pins` and `_data` have five entries; `_ledcStart`
exists on the ESP32 only. -/
structure BusPwm extends BusBase where
  _pins : List Nat := [255, 255, 255, 255, 255]
  _data : List Nat := [255, 255, 255, 255, 255]
  _ledcStart : Nat := 255
  deriving DecidableEq, Repr

/-- The class `BusNetwork`. `_data` owns the heap buffer (`none` for a null
pointer); `_client` holds the four address bytes. The member `_bri` of this
class shadows the one of `Bus`; it is the field `_bri` here. -/
structure BusNetwork extends BusBase where
  _client : List Nat := [0, 0, 0, 0]
  _len : Nat := 0
  _UDPtype : Nat
  _UDPchannels : Nat
  _rgbw : Bool
  _broadcastLock : Bool
  _data : Option (List Nat)
  deriving DecidableEq, Repr

/-! ### PolyBus, as far as BusDigital calls it -/

namespace PolyBus

/-- Modelled from the spec: the driver call `setPixelColor(index, color,
colorOrder)`; a call with `I_NONE` or a null handle is ignored. -/
def setPixelColor (busPtr : Option Driver) (busType pix c co : Nat) : Option Driver :=
  if busType == I_NONE then busPtr
  else busPtr.map (fun d => { d with writes := (pix, co, c) :: d.writes })

/-- Modelled from the spec: the driver call `getPixelColor(index, colorOrder) ->
color`: the colour last written at that index with that colour order, 0 if
there is none or the handle is `I_NONE` or null. -/
def getPixelColor (busPtr : Option Driver) (busType pix co : Nat) : Nat :=
  if busType == I_NONE then 0
  else match busPtr with
    | none => 0
    | some d =>
      match d.writes.find? (fun w => w.1 == pix && w.2.1 == co) with
      | some w => w.2.2
      | none => 0

/-- Modelled from the spec: the driver query `canShow`; with `I_NONE` or a null
handle nothing can be in flight. -/
def canShow (busPtr : Option Driver) (busType : Nat) : Bool :=
  if busType == I_NONE then true
  else match busPtr with
    | none => true
    | some d => d.ready

end PolyBus

/-! ### BusDigital -/

namespace BusDigital

/-- The method `BusDigital::cleanup()`: the driver is destroyed, then the pins are
released, second pin first. -/
def cleanup (P : Platform) (pm : PinManager) (b : BusDigital) : PinManager × BusDigital :=
  let b := { b with _iType := I_NONE, _valid := false, _busPtr := none }
  let pm := pm.deallocatePin P (b._pins.getD 1 255) PinOwner.BusDigital
  let pm := pm.deallocatePin P (b._pins.getD 0 255) PinOwner.BusDigital
  (pm, b)

/-- The constructor `BusDigital::BusDigital(BusConfig &bc, uint8_t nr)`. -/
def new (P : Platform) (pm : PinManager) (bc : BusConfig) (nr : Nat) :
    PinManager × BusDigital :=
  let b : BusDigital := { _type := bc.type, _start := bc.start }
  if !IS_DIGITAL bc.type || bc.count == 0 then (pm, b)
  else
    let r0 := pm.allocatePin P (bc.pins.getD 0 255) PinOwner.BusDigital
    if !r0.2 then (r0.1, b)
    else
      let b := { b with _pins := b._pins.set 0 (bc.pins.getD 0 255) }
      let r1 := if IS_2PIN bc.type then
          r0.1.allocatePin P (bc.pins.getD 1 255) PinOwner.BusDigital
        else (r0.1, true)
      if !r1.2 then cleanup P r1.1 b
      else
        let b := if IS_2PIN bc.type then
            { b with _pins := b._pins.set 1 (bc.pins.getD 1 255) } else b
        let b := { b with
          reversed := bc.reversed
          _needsRefresh := bc.refreshReq || bc.type == TYPE_TM1814
          _skip := bc.skipAmount
          _len := (bc.count + bc.skipAmount) % 65536 }
        let b := { b with _iType := P.getI bc.type b._pins nr }
        if b._iType == I_NONE then (r1.1, b)
        else
          let b := { b with _busPtr := P.create b._iType b._pins b._len nr }
          let b := { b with _valid := b._busPtr.isSome, _colorOrder := bc.colorOrder }
          (r1.1, b)

/-- The index translation at the head of `BusDigital::setPixelColor` and
`BusDigital::getPixelColor`: `if (reversed) pix = _len - pix -1; else pix += _skip;`
with `pix` a `uint16_t`. -/
def physical (b : BusDigital) (pix : Nat) : Nat :=
  if b.reversed then (b._len + 65536 - pix - 1) % 65536
  else (pix + b._skip) % 65536

/-- The method `BusDigital::setPixelColor(uint16_t pix, uint32_t c)`. -/
def setPixelColor (b : BusDigital) (pix c : Nat) : BusDigital :=
  { b with _busPtr := PolyBus.setPixelColor b._busPtr b._iType (b.physical pix) c b._colorOrder }

/-- The method `BusDigital::getPixelColor(uint16_t pix)`. -/
def getPixelColor (b : BusDigital) (pix : Nat) : Nat :=
  PolyBus.getPixelColor b._busPtr b._iType (b.physical pix) b._colorOrder

/-- The method `BusDigital::getLength()`: `_len - _skip` returned as `uint16_t`. -/
def getLength (b : BusDigital) : Nat := (b._len + 65536 - b._skip) % 65536

/-- The method `BusDigital::canShow()`. -/
def canShow (b : BusDigital) : Bool := PolyBus.canShow b._busPtr b._iType

end BusDigital

/-! ### BusPwm -/

namespace BusPwm

/-- The loop of `BusPwm::deallocatePins()` from index `i` on, `n` iterations
left. `none` stands for a read past the end of the array `_pins`. The calls
that only touch the output hardware (`digitalWrite`, `ledcDetachPin`) leave the
ledger as it is. -/
def deallocateLoop (P : Platform) (pins : List Nat) : Nat → Nat → PinManager → Option PinManager
  | _, 0, pm => some pm
  | i, n + 1, pm =>
    match pins[i]? with
    | none => none
    | some p => deallocateLoop P pins (i + 1) n (pm.deallocatePin P p PinOwner.BusPwm)

/-- The method `BusPwm::deallocatePins()`. -/
def deallocatePins (P : Platform) (pm : PinManager) (b : BusPwm) : Option PinManager :=
  let numPins := NUM_PWM_PINS b._type
  match deallocateLoop P b._pins 0 numPins pm with
  | none => none
  | some pm =>
    if P.esp8266 then some pm
    else some (pm.deallocateLedc b._ledcStart numPins)

/-- The pin loop of the constructor from index `i` on, `n` iterations left: the
ledger and the bus after the loop, and whether every acquisition succeeded
(on a failure the loop stops and the constructor goes on to `deallocatePins`). -/
def allocateLoop (P : Platform) (bc : BusConfig) :
    Nat → Nat → PinManager → BusPwm → PinManager × BusPwm × Bool
  | _, 0, pm, b => (pm, b, true)
  | i, n + 1, pm, b =>
    let currentPin := bc.pins.getD i 255
    let r := pm.allocatePin P currentPin PinOwner.BusPwm
    if !r.2 then (r.1, b, false)
    else allocateLoop P bc (i + 1) n r.1 { b with _pins := b._pins.set i currentPin }

/-- The constructor `BusPwm::BusPwm(BusConfig &bc)`. -/
def new (P : Platform) (pm : PinManager) (bc : BusConfig) : Option (PinManager × BusPwm) :=
  let b : BusPwm := { _type := bc.type, _start := bc.start, _valid := false }
  if !IS_PWM bc.type then some (pm, b)
  else
    let numPins := NUM_PWM_PINS bc.type
    -- #ifndef ESP8266: _ledcStart = pinManager.allocateLedc(numPins);
    let rl := if P.esp8266 then (pm, b._ledcStart) else pm.allocateLedc numPins
    let b := { b with _ledcStart := rl.2 }
    if !P.esp8266 && b._ledcStart == 255 then
      (deallocatePins P rl.1 b).map (fun pm => (pm, b))
    else
      let r := allocateLoop P bc 0 numPins rl.1 b
      if !r.2.2 then (deallocatePins P r.1 r.2.1).map (fun pm => (pm, r.2.1))
      else some (r.1, { r.2.1 with reversed := bc.reversed, _valid := true })

/-- The method `BusPwm::setPixelColor(uint16_t pix, uint32_t c)`. -/
def setPixelColor (bus : BusPwm) (pix c : Nat) : BusPwm :=
  if pix != 0 || !bus._valid then bus
  else
    let r := (c >>> 16) % 256
    let g := (c >>> 8) % 256
    let b := c % 256
    let w := (c >>> 24) % 256
    if bus._type == TYPE_ANALOG_1CH then
      { bus with _data := bus._data.set 0 (max r (max g (max b w))) }
    else if bus._type == TYPE_ANALOG_2CH || bus._type == TYPE_ANALOG_3CH
        || bus._type == TYPE_ANALOG_4CH || bus._type == TYPE_ANALOG_5CH then
      { bus with _data :=
          ((((bus._data.set 0 r).set 1 g).set 2 b).set 3 w).set 4 0 }
    else bus

/-- The method `BusPwm::getPixelColor(uint16_t pix)`; it does no index check. -/
def getPixelColor (bus : BusPwm) (_pix : Nat) : Nat :=
  if !bus._valid then 0
  else ((bus._data.getD 3 0 <<< 24) ||| (bus._data.getD 0 0 <<< 16)
    ||| (bus._data.getD 1 0 <<< 8) ||| bus._data.getD 2 0) % 4294967296

end BusPwm

/-! ### BusNetwork -/

namespace BusNetwork

/-- The constructor `BusNetwork::BusNetwork(BusConfig &bc)`. -/
def new (P : Platform) (bc : BusConfig) : BusNetwork :=
  let rgbw := false
  let channels := if rgbw then 4 else 3
  let b : BusNetwork :=
    { _type := bc.type, _start := bc.start, _valid := false
      _rgbw := rgbw
      _UDPtype := (bc.type + 256 - TYPE_NET_DDP_RGB) % 256
      _UDPchannels := channels
      _broadcastLock := P.garbage
      _data := if P.malloc (bc.count * channels) then
          some (List.replicate (bc.count * channels) 0) else none }
  if b._data.isNone then b
  else
    { b with
      _len := bc.count
      _client := [bc.pins.getD 0 255, bc.pins.getD 1 255, bc.pins.getD 2 255, bc.pins.getD 3 255]
      _broadcastLock := false
      _valid := true }

/-- The byte offset `uint16_t offset = pix * _UDPchannels;`. -/
def offset (b : BusNetwork) (pix : Nat) : Nat := (pix * b._UDPchannels) % 65536

/-- The method `BusNetwork::setPixelColor(uint16_t pix, uint32_t c)`. -/
def setPixelColor (b : BusNetwork) (pix c : Nat) : BusNetwork :=
  if !b._valid || pix ≥ b._len then b
  else
    let offset := b.offset pix
    let d := b._data.map (fun d => d.set offset (0xFF &&& (c >>> 16)))
    let d := d.map (fun d => d.set (offset + 1) (0xFF &&& (c >>> 8)))
    let d := d.map (fun d => d.set (offset + 2) (0xFF &&& c))
    let d := if b._rgbw then d.map (fun d => d.set (offset + 3) (0xFF &&& (c >>> 24))) else d
    { b with _data := d }

/-- The byte `_data[i]`. -/
def byteAt (b : BusNetwork) (i : Nat) : Nat :=
  match b._data with
  | some d => d.getD i 0
  | none => 0

/-- The method `BusNetwork::getPixelColor(uint16_t pix)`. -/
def getPixelColor (b : BusNetwork) (pix : Nat) : Nat :=
  if !b._valid || pix ≥ b._len then 0
  else
    let offset := b.offset pix
    ((if b._rgbw then b.byteAt (offset + 3) <<< 24 else 0)
      ||| (b.byteAt offset <<< 16)
      ||| (b.byteAt (offset + 1) <<< 8)
      ||| b.byteAt (offset + 2)) % 4294967296

/-- The method `BusNetwork::canShow()`. -/
def canShow (b : BusNetwork) : Bool := !b._broadcastLock

end BusNetwork

/-! ### Virtual dispatch -/

/-- An object of one of the three subclasses of `Bus`, as a `Bus*` points to it. -/
inductive Bus where
  | digital (b : BusDigital)
  | pwm (b : BusPwm)
  | network (b : BusNetwork)
  deriving DecidableEq, Repr

namespace Bus

/-- The members of the parent class. -/
def base : Bus → BusBase
  | digital b => b.toBusBase
  | pwm b => b.toBusBase
  | network b => b.toBusBase

/-- The method `Bus::getStart()`. -/
def getStart (b : Bus) : Nat := b.base._start

/-- The method `Bus::getType()`. -/
def getType (b : Bus) : Nat := b.base._type

/-- The method `Bus::isOk()`. -/
def isOk (b : Bus) : Bool := b.base._valid

/-- The virtual method `getLength()`; `BusPwm` inherits `Bus::getLength()`, which
returns 1. -/
def getLength : Bus → Nat
  | digital b => b.getLength
  | pwm _ => 1
  | network b => b._len

/-- The virtual method `setPixelColor(uint16_t pix, uint32_t c)`. -/
def setPixelColor (bus : Bus) (pix c : Nat) : Bus :=
  match bus with
  | digital b => digital (b.setPixelColor pix c)
  | pwm b => pwm (b.setPixelColor pix c)
  | network b => network (b.setPixelColor pix c)

/-- The virtual method `getPixelColor(uint16_t pix)`. -/
def getPixelColor (bus : Bus) (pix : Nat) : Nat :=
  match bus with
  | digital b => b.getPixelColor pix
  | pwm b => b.getPixelColor pix
  | network b => b.getPixelColor pix

/-- The virtual method `canShow()`; `BusPwm` inherits `Bus::canShow()`, which
returns true. -/
def canShow : Bus → Bool
  | digital b => b.canShow
  | pwm _ => true
  | network b => b.canShow

/-- The effect of `delete` on the ledger: the destructor of the subclass runs
`cleanup()`. `BusNetwork::cleanup()` only frees the buffer. `none` stands for a
read past the end of an array (see `BusPwm.deallocateLoop`). -/
def destroy (P : Platform) (pm : PinManager) : Bus → Option PinManager
  | digital b => some (b.cleanup P pm).1
  | pwm b => b.deallocatePins P pm
  | network _ => some pm

/-- Whether the global index `pix` passes the range test of the dispatch loops,
that is, whether `pix < bstart || pix >= bstart + b->getLength()` is false. -/
def contains (b : Bus) (pix : Nat) : Bool :=
  !(decide (pix < b.getStart) || decide (pix ≥ b.getStart + b.getLength))

end Bus

/-! ## BusManager -/

/-- The class `BusManager`: `busses` is the prefix `busses[0 .. numBusses)` of the
pointer array, in registration order. -/
structure BusManager where
  busses : List Bus
  deriving DecidableEq, Repr

/-- The state the registry operations work on: the global `pinManager` and the
`BusManager` object. -/
structure State where
  pinManager : PinManager
  busManager : BusManager
  deriving DecidableEq, Repr

namespace BusManager

/-- The method `BusManager::getNumBusses()`. -/
def getNumBusses (bm : BusManager) : Nat := bm.busses.length

/-- The method `BusManager::getBus(uint8_t busNr)`; `none` is the null pointer. -/
def getBus (bm : BusManager) (busNr : Nat) : Option Bus :=
  if busNr ≥ bm.getNumBusses then none else bm.busses[busNr]?

/-- The body of the loop of `BusManager::setPixelColor`, run over the busses
from the current one on. -/
def setPixelColorLoop (pix c : Nat) : List Bus → List Bus
  | [] => []
  | b :: rest =>
    let bstart := b.getStart
    if pix < bstart || pix ≥ bstart + b.getLength then
      b :: setPixelColorLoop pix c rest
    else
      b.setPixelColor ((pix - bstart) % 65536) c :: setPixelColorLoop pix c rest

/-- The method `BusManager::setPixelColor(uint16_t pix, uint32_t c)`. -/
def setPixelColor (bm : BusManager) (pix c : Nat) : BusManager :=
  { bm with busses := setPixelColorLoop pix c bm.busses }

/-- The loop of `BusManager::getPixelColor`, run over the busses from the current
one on; 0 after the last bus. -/
def getPixelColorLoop (pix : Nat) : List Bus → Nat
  | [] => 0
  | b :: rest =>
    let bstart := b.getStart
    if pix < bstart || pix ≥ bstart + b.getLength then getPixelColorLoop pix rest
    else b.getPixelColor ((pix - bstart) % 65536)

/-- The method `BusManager::getPixelColor(uint16_t pix)`. -/
def getPixelColor (bm : BusManager) (pix : Nat) : Nat :=
  getPixelColorLoop pix bm.busses

/-- The loop of `BusManager::canAllShow()`. -/
def canAllShowLoop : List Bus → Bool
  | [] => true
  | b :: rest => if !b.canShow then false else canAllShowLoop rest

/-- The method `BusManager::canAllShow()`. -/
def canAllShow (bm : BusManager) : Bool := canAllShowLoop bm.busses

/-- The loop of `BusManager::getTotalLength()`: `len += busses[i]->getLength()`
on a `uint16_t`. -/
def getTotalLengthLoop (len : Nat) : List Bus → Nat
  | [] => len
  | b :: rest => getTotalLengthLoop ((len + b.getLength) % 65536) rest

/-- The method `BusManager::getTotalLength()`. -/
def getTotalLength (bm : BusManager) : Nat := getTotalLengthLoop 0 bm.busses

/-- The method `BusManager::add(BusConfig &bc)`: the state after the call and
the returned `int`. `none` stands for a read past the end of an array in a
constructor, which does not happen (see the theorems). -/
def add (P : Platform) (s : State) (bc : BusConfig) : Option (State × Int) :=
  let numBusses := s.busManager.getNumBusses
  if numBusses ≥ P.WLED_MAX_BUSSES then some (s, -1)
  else
    let r : Option (PinManager × Bus) :=
      if bc.type ≥ TYPE_NET_DDP_RGB && bc.type < 96 then
        some (s.pinManager, Bus.network (BusNetwork.new P bc))
      else if IS_DIGITAL bc.type then
        let d := BusDigital.new P s.pinManager bc numBusses
        some (d.1, Bus.digital d.2)
      else
        (BusPwm.new P s.pinManager bc).map (fun d => (d.1, Bus.pwm d.2))
    r.map (fun d =>
      ({ pinManager := d.1, busManager := { busses := s.busManager.busses ++ [d.2] } },
        (numBusses : Int)))

/-- The loop `for (i < numBusses) delete busses[i];` of `removeAll`, as its effect
on the ledger. -/
def deleteLoop (P : Platform) (pm : PinManager) : List Bus → Option PinManager
  | [] => some pm
  | b :: rest =>
    match b.destroy P pm with
    | none => none
    | some pm => deleteLoop P pm rest

/-- The loop `while (!canAllShow()) yield();` of `removeAll`. What runs during the
`k`-th `yield()` is the environment `yield k`, which may change the state in any
way; `fuel` bounds the number of iterations, `none` means it ran out. The
result is the state in which the loop is left. -/
def waitLoop (yield : Nat → State → State) : Nat → Nat → State → Option State
  | 0, _, s => if !s.busManager.canAllShow then none else some s
  | fuel + 1, k, s =>
    if !s.busManager.canAllShow then waitLoop yield fuel (k + 1) (yield k s) else some s

/-- The method `BusManager::removeAll()`. -/
def removeAll (P : Platform) (yield : Nat → State → State) (fuel : Nat) (s : State) :
    Option State :=
  match waitLoop yield fuel 0 s with
  | none => none
  | some s1 =>
    match deleteLoop P s1.pinManager s1.busManager.busses with
    | none => none
    | some pm => some { pinManager := pm, busManager := { busses := [] } }

end BusManager

/-! ## Rendering, brightness, memory estimate and the BusConfig constructor -/

/-- What the bus code hands to the output hardware, to the driver and to the
broadcast transmitter when it renders. -/
inductive Output where
  /-- the call `analogWrite(pin, value)` of the ESP8266 branch -/
  | analogWrite (pin value : Nat)
  /-- the call `ledcWrite(channel, value)` of the ESP32 branch -/
  | ledcWrite (channel value : Nat)
  /-- the call `PolyBus::show` reaching a live driver -/
  | driverShow (busType : Nat) (d : Driver)
  /-- the call `realtimeBroadcast(type, client, length, buffer, bri, isRGBW)` -/
  | broadcast (udpType : Nat) (client : List Nat) (len : Nat) (data : Option (List Nat))
      (bri : Nat) (rgbw : Bool)
  deriving DecidableEq, Repr

/-- Modelled from the spec: the driver call `show`; a call with `I_NONE` or a
null handle is ignored, otherwise the driver transmits its pixel store. -/
def PolyBus.show (busPtr : Option Driver) (busType : Nat) : List Output :=
  if busType == I_NONE then []
  else match busPtr with
    | none => []
    | some d => [Output.driverShow busType d]

/-- The method `BusDigital::show()`. -/
def BusDigital.show (b : BusDigital) : List Output := PolyBus.show b._busPtr b._iType

/-- The loop of `BusPwm::show()` from index `i` on, `n` iterations left: the
values driven, in order. `none` stands for a read past the end of `_data` (or
of `_pins` on the ESP8266). -/
def BusPwm.showLoop (P : Platform) (b : BusPwm) : Nat → Nat → Option (List Output)
  | _, 0 => some []
  | i, n + 1 =>
    match b._data[i]? with
    | none => none
    | some dat =>
      -- uint8_t scaled = (_data[i] * _bri) / 255;
      let scaled := (dat * b._bri / 255) % 256
      -- if (reversed) scaled = 255 - scaled;
      let scaled := if b.reversed then (255 - scaled) % 256 else scaled
      if P.esp8266 then
        match b._pins[i]? with
        | none => none
        | some pin => (showLoop P b (i + 1) n).map (fun r => Output.analogWrite pin scaled :: r)
      else
        (showLoop P b (i + 1) n).map
          (fun r => Output.ledcWrite ((b._ledcStart + i) % 256) scaled :: r)

/-- The method `BusPwm::show()`. -/
def BusPwm.show (P : Platform) (b : BusPwm) : Option (List Output) :=
  if !b._valid then some []
  else showLoop P b 0 (NUM_PWM_PINS b._type)

/-- The method `BusPwm::setBrightness(uint8_t b)`. -/
def BusPwm.setBrightness (bus : BusPwm) (b : Nat) : BusPwm := { bus with _bri := b }

/-- The method `BusNetwork::setBrightness(uint8_t b)`. -/
def BusNetwork.setBrightness (bus : BusNetwork) (b : Nat) : BusNetwork := { bus with _bri := b }

/-- The method `BusNetwork::show()`: the bus afterwards and what was handed to the
transmitter. -/
def BusNetwork.show (b : BusNetwork) : BusNetwork × List Output :=
  if !b._valid || !b.canShow then (b, [])
  else
    ({ b with _broadcastLock := false },
      [Output.broadcast b._UDPtype b._client b._len b._data b._bri b._rgbw])

/-- The indices of `_data` that `BusNetwork::setPixelColor(pix, c)` writes and
`BusNetwork::getPixelColor(pix)` reads: none when the guard returns early,
otherwise `offset`, `offset+1`, `offset+2` and, for RGBW, `offset+3`. -/
def BusNetwork.touched (b : BusNetwork) (pix : Nat) : List Nat :=
  if !b._valid || pix ≥ b._len then []
  else
    [b.offset pix, b.offset pix + 1, b.offset pix + 2]
      ++ (if b._rgbw then [b.offset pix + 3] else [])

/-- What the constructor establishes for a valid `BusNetwork` and
`setPixelColor` preserves: the buffer exists and has `_len * _UDPchannels`
bytes, with 4 channels for RGBW and 3 otherwise. -/
def BusNetwork.wellFormed (b : BusNetwork) : Bool :=
  b._valid && b._UDPchannels == (if b._rgbw then 4 else 3) &&
    (match b._data with
      | some d => d.length == b._len * b._UDPchannels
      | none => false)

/-- The local `nPins` of the `BusConfig` constructor, computed from the stored
type. -/
def BusConfig.nPins (type : Nat) : Nat :=
  if type ≥ TYPE_NET_DDP_RGB && type < 96 then 4
  else if type > 47 then 2
  else if type > 40 && type < 46 then NUM_PWM_PINS type
  else 1

/-- The loop `for (i < nPins) pins[i] = ppins[i];` of the `BusConfig` constructor
from index `i` on, `n` iterations left. `none` stands for a read past the end
of the caller's array `ppins`. -/
def BusConfig.copyPins (ppins : List Nat) : Nat → Nat → List Nat → Option (List Nat)
  | _, 0, pins => some pins
  | i, n + 1, pins =>
    match ppins[i]? with
    | none => none
    | some p => copyPins ppins (i + 1) n (pins.set i p)

/-- The constructor `BusConfig::BusConfig(busType, ppins, pstart, len, pcolorOrder,
rev, skip)`. `LEDPIN` is the constant of const.h that initialises `pins[0]`. -/
def BusConfig.new (LEDPIN busType : Nat) (ppins : List Nat) (pstart len pcolorOrder : Nat)
    (rev : Bool) (skip : Nat) : Option BusConfig :=
  let refreshReq := GET_BIT busType 7 != 0
  let type := busType &&& 0x7F
  (BusConfig.copyPins ppins 0 (BusConfig.nPins type) [LEDPIN, 255, 255, 255, 255]).map
    (fun pins =>
      { type := type, count := len, start := pstart, colorOrder := pcolorOrder
        reversed := rev, skipAmount := skip, refreshReq := refreshReq, pins := pins })

/-- The `return` statements of `BusManager::memUsage`, in source order. -/
inductive MemReturn where
  /-- the statement `return len*20;` (ESP8266, pin 3, RGBW) -/
  | dmaRgbw
  /-- the statement `return len*15;` (ESP8266, pin 3) -/
  | dmaRgb
  /-- the statement `return len*4;` inside the digital branch (ESP8266, RGBW) -/
  | bitBangRgbw
  /-- the statement `return len*3;` inside the digital branch (ESP8266) -/
  | bitBangRgb
  /-- the statement `return len*8;` (ESP32, RGBW) -/
  | rmtRgbw
  /-- the statement `return len*6;` (ESP32) -/
  | rmtRgb
  /-- the statement `return 5;` -/
  | analog
  /-- the statement `return len*4;` for types 44 and 45 -/
  | analogRgbw
  /-- the final statement `return len*3;` -/
  | final
  deriving DecidableEq, Repr

/-- The method `BusManager::memUsage(BusConfig &bc)`: the `return` statement that
is executed and the `uint32_t` it returns. -/
def BusManager.memUsageTraced (P : Platform) (bc : BusConfig) : MemReturn × Nat :=
  let type := bc.type
  let len := bc.count
  if type > 15 && type < 32 then
    if P.esp8266 then
      if bc.pins.getD 0 255 == 3 then
        if type > 29 then (MemReturn.dmaRgbw, (len * 20) % 4294967296)
        else (MemReturn.dmaRgb, (len * 15) % 4294967296)
      else if type > 29 then (MemReturn.bitBangRgbw, (len * 4) % 4294967296)
      else (MemReturn.bitBangRgb, (len * 3) % 4294967296)
    else if type > 29 then (MemReturn.rmtRgbw, (len * 8) % 4294967296)
    else (MemReturn.rmtRgb, (len * 6) % 4294967296)
  else if type > 31 && type < 48 then (MemReturn.analog, 5)
  else if type == 44 || type == 45 then (MemReturn.analogRgbw, (len * 4) % 4294967296)
  else (MemReturn.final, (len * 3) % 4294967296)

/-- The value `BusManager::memUsage(BusConfig &bc)` returns. -/
def BusManager.memUsage (P : Platform) (bc : BusConfig) : Nat :=
  (BusManager.memUsageTraced P bc).2

/-! ## Specification-side definitions and worked examples -/

/-- The total pixel span in the words of the specification: "the maximum over
all buses of rangeStart + length" (0 for the empty registry). -/
def totalSpanSpec (bm : BusManager) : Nat :=
  (bm.busses.map (fun b => b.getStart + b.getLength)).foldl max 0

/-- The state after the environment has run during the yields numbered
`k, k+1, ..., k+j-1`. -/
def afterYields (yield : Nat → State → State) : Nat → Nat → State → State
  | _, 0, s => s
  | k, j + 1, s => afterYields yield (k + 1) j (yield k s)

/-- Whether destroying the bus stays inside the array `_pins` (only the loop of
`BusPwm::deallocatePins` indexes with a computed bound). -/
def Bus.pinsInBounds : Bus → Bool
  | Bus.pwm b => decide (NUM_PWM_PINS b._type ≤ b._pins.length)
  | _ => true

/-- The state at start-up: no pin claimed, sixteen free channel slots, no bus. -/
def State.init : State :=
  { pinManager := { claims := [], ledc := List.replicate 16 false }
    busManager := { busses := [] } }

/-- Registers the descriptors one after the other with `BusManager::add`. -/
def addAll (P : Platform) : State → List BusConfig → Option State
  | s, [] => some s
  | s, bc :: rest =>
    match BusManager.add P s bc with
    | none => none
    | some r => addAll P r.1 rest

/-- An ESP32 build used in the worked examples: GPIO 0..39 are valid pins, every
digital type has a driver, and no allocation fails. -/
def esp32 : Platform :=
  { esp8266 := false
    MAX_LEDS := 8192
    MAX_LEDS_PER_BUS := 4096
    WLED_MAX_BUSSES := 10
    isPinOk := fun gpio => decide (gpio < 40)
    getI := fun t _ _ => if IS_DIGITAL t then 1 else I_NONE
    create := fun _ _ _ _ => some { writes := [], ready := true, bri := 255 }
    malloc := fun _ => true
    garbage := false }

/-- An ESP8266 build used in the worked examples. -/
def esp8266 : Platform :=
  { esp32 with esp8266 := true, MAX_LEDS := 1664, WLED_MAX_BUSSES := 3
               isPinOk := fun gpio => decide (gpio < 17) }

/-- A descriptor with the default colour order, not reversed, no skipped
pixels, no refresh flag. -/
def BusConfig.simple (type start count : Nat) (pins : List Nat) : BusConfig :=
  { type := type, count := count, start := start, colorOrder := COL_ORDER_GRB
    reversed := false, skipAmount := 0, refreshReq := false
    pins := pins ++ List.replicate (5 - pins.length) 255 }

/-- The value of `count` after the first two statements of `adjustBounds`
(used to state its closed form). -/
def clampedCount (P : Platform) (count : Nat) : Nat :=
  let c := if count = 0 then 1 else count
  if c > P.MAX_LEDS_PER_BUS then P.MAX_LEDS_PER_BUS % 65536 else c

/-- The value of `count` after the truncation statement of `adjustBounds`
(used to state its closed form). -/
def fittedCount (P : Platform) (start count : Nat) : Nat :=
  if start + clampedCount P count > P.MAX_LEDS then (P.MAX_LEDS - start) % 65536
  else clampedCount P count

/-- Whether a `BusDigital` holds a driver: the handle is not null and the
driver-kind token is not `I_NONE`. -/
def BusDigital.hasDriver (b : BusDigital) : Bool :=
  b._busPtr.isSome && b._iType != I_NONE

/-- One valid single-wire RGB bus, start 0, 30 pixels, data pin 2. -/
def singleBusExample : State :=
  (addAll esp32 State.init [BusConfig.simple TYPE_WS2812_RGB 0 30 [2]]).getD State.init

/-- One valid single-wire RGB bus, start 10, 30 pixels, data pin 2. -/
def offsetBusExample : State :=
  (addAll esp32 State.init [BusConfig.simple TYPE_WS2812_RGB 10 30 [2]]).getD State.init

/-- Two valid single-wire RGB busses that both cover `[0,10)`, on pins 2 and 4. -/
def overlapExample : State :=
  (addAll esp32 State.init
    [BusConfig.simple TYPE_WS2812_RGB 0 10 [2], BusConfig.simple TYPE_WS2812_RGB 0 10 [4]]).getD
    State.init

/-- Two valid single-wire RGB busses covering `[0,10)` and `[10,20)`. -/
def adjacentExample : State :=
  (addAll esp32 State.init
    [BusConfig.simple TYPE_WS2812_RGB 0 10 [2], BusConfig.simple TYPE_WS2812_RGB 10 10 [4]]).getD
    State.init

/-- A network bus of 30000 pixels at start 0, then a one-pixel bus A at 21846
and a one-pixel bus B at 0; the intervals of A and B are disjoint. -/
def interferenceExample : State :=
  (addAll esp32 State.init
    [BusConfig.simple TYPE_NET_DDP_RGB 0 30000 [10, 0, 0, 1],
     BusConfig.simple TYPE_WS2812_RGB 21846 1 [2],
     BusConfig.simple TYPE_WS2812_RGB 0 1 [4]]).getD State.init

/-- A descriptor on the ESP8266 build that starts four pixels before `MAX_LEDS`
and asks for ten. -/
def nearEndConfig : BusConfig := BusConfig.simple TYPE_WS2812_RGB 1660 10 [2]

/-- A reversed single-wire RGB bus of 10 visible pixels behind 2 skipped ones,
as its constructor builds it on the ESP32 build. -/
def reversedSkipExample : BusDigital :=
  (BusDigital.new esp32 State.init.pinManager
    { BusConfig.simple TYPE_WS2812_RGB 0 10 [2] with reversed := true, skipAmount := 2 } 0).2

/-- A single-wire RGB bus of 10 visible pixels behind 2 skipped ones, not
reversed. -/
def skipConfig : BusConfig :=
  { BusConfig.simple TYPE_WS2812_RGB 0 10 [2] with skipAmount := 2 }

/-- The reversed variant of `skipConfig`. -/
def reversedSkipConfig : BusConfig := { skipConfig with reversed := true }

/-- Three single-wire RGB busses on the ESP8266 build, whose registry holds at
most three. -/
def fullExample : State :=
  (addAll esp8266 State.init
    [BusConfig.simple TYPE_WS2812_RGB 0 10 [2], BusConfig.simple TYPE_WS2812_RGB 10 10 [4],
     BusConfig.simple TYPE_WS2812_RGB 20 10 [5]]).getD State.init

/-- A descriptor that asks for data pin 2, which `singleBusExample` has already
claimed. -/
def conflictConfig : BusConfig := BusConfig.simple TYPE_WS2812_RGB 30 10 [2]

/-- The ESP32 build with drivers that still have a transmission in flight when
they are created. -/
def esp32Busy : Platform :=
  { esp32 with create := fun _ _ _ _ => some { writes := [], ready := false, bri := 255 } }

/-- One valid single-wire RGB bus whose driver reports `canShow() == false`. -/
def busyExample : State :=
  (addAll esp32Busy State.init [BusConfig.simple TYPE_WS2812_RGB 0 30 [2]]).getD State.init

/-- The bus after its driver has finished the transmission. -/
def Bus.finish : Bus → Bus
  | Bus.digital b =>
    Bus.digital { b with _busPtr := b._busPtr.map (fun d => { d with ready := true }) }
  | b => b

/-- An environment in which the drivers finish during the second `yield()`
(number 1) and nothing else happens. -/
def finishAtSecondYield (k : Nat) (s : State) : State :=
  if k = 1 then { s with busManager := { busses := s.busManager.busses.map Bus.finish } }
  else s

/-- The number of meaningful pin slots in the words of the specification: "1 for
single-wire addressable; 2 for dual-wire addressable or 2-channel fixtures; 4
for network-virtual; otherwise the PWM-channel count for the type". -/
def nPinsSpec (type : Nat) : Nat :=
  if type ≥ TYPE_NET_DDP_RGB && type < 96 then 4
  else if (IS_DIGITAL type && IS_2PIN type) || type == TYPE_ANALOG_2CH then 2
  else if IS_DIGITAL type then 1
  else NUM_PWM_PINS type

/-- A valid 1-channel PWM bus on pin 2, as its constructor builds it on the ESP32
build. -/
def oneChannelExample : BusPwm :=
  ((BusPwm.new esp32 State.init.pinManager (BusConfig.simple TYPE_ANALOG_1CH 0 1 [2])).map
    (fun r => r.2)).getD {}

/-- The ESP32 build with a driver factory that finds no driver for any type. -/
def esp32NoDriver : Platform := { esp32 with getI := fun _ _ _ => I_NONE }

/-- The ESP32 build on which every driver instantiation fails. -/
def esp32NoMemory : Platform :=
  { esp32 with create := fun _ _ _ _ => none, malloc := fun _ => false }

/-- A valid network bus of 10 pixels, as its constructor builds it on the ESP32
build. -/
def smallNetworkExample : BusNetwork :=
  BusNetwork.new esp32 (BusConfig.simple TYPE_NET_DDP_RGB 0 10 [10, 0, 0, 1])

/-- A valid network bus of 21846 pixels, the smallest count with
`count * 3 > 65536`. -/
def boundaryNetworkExample : BusNetwork :=
  BusNetwork.new esp32 (BusConfig.simple TYPE_NET_DDP_RGB 0 21846 [10, 0, 0, 1])

/-- A dual-wire descriptor (TYPE_WS2801) on data pin 2 and clock pin 4. -/
def twoWireConfig : BusConfig := BusConfig.simple TYPE_WS2801 0 10 [2, 4]

/-- A dual-wire descriptor on data pin 4 and clock pin 2; `singleBusExample` has
already claimed pin 2. -/
def secondPinTakenConfig : BusConfig := BusConfig.simple TYPE_WS2801 30 10 [4, 2]

/-- The ledger and the channel-slot start with which the `BusPwm` constructor
enters its pin loop: on the ESP32 the result of `allocateLedc(numPins)`. -/
def BusPwm.ledcStep (P : Platform) (pm : PinManager) (bc : BusConfig) : PinManager × Nat :=
  if P.esp8266 then (pm, 255) else pm.allocateLedc (NUM_PWM_PINS bc.type)

/-- The `BusPwm` object when the constructor enters its pin loop: the members
have their initial values, apart from the type and start of the descriptor and
the channel-slot start. -/
def BusPwm.blank (bc : BusConfig) (ledcStart : Nat) : BusPwm :=
  { _type := bc.type, _start := bc.start, _valid := false, _ledcStart := ledcStart }

/-- The pin loop of the `BusPwm` constructor, run from its start: the ledger and
the bus when the loop is left, and whether every acquisition succeeded (`false`
means that the acquisition of some pin `k` failed). -/
def BusPwm.pinStep (P : Platform) (pm : PinManager) (bc : BusConfig) :
    PinManager × BusPwm × Bool :=
  BusPwm.allocateLoop P bc 0 (NUM_PWM_PINS bc.type) (BusPwm.ledcStep P pm bc).1
    (BusPwm.blank bc (BusPwm.ledcStep P pm bc).2)

/-- The claims `claims` consist of the claims `base` that were there before the
constructor ran, preceded by claims of this bus: each of those is tagged
`BusPwm`, is on a valid pin and is recorded in `pins` at an index in
`[lo, hi)`; and no valid pin recorded in `pins` is claimed in `base`. -/
def BusPwm.Owns (P : Platform) (base claims : List (Nat × PinOwner)) (pins : List Nat)
    (lo hi : Nat) : Prop :=
  ∃ xs, claims = xs ++ base ∧
    (∀ x ∈ xs, x.2 = PinOwner.BusPwm ∧ P.isPinOk x.1 = true ∧
      ∃ j, lo ≤ j ∧ j < hi ∧ pins[j]? = some x.1) ∧
    (∀ (j p : Nat), pins[j]? = some p → P.isPinOk p = true → ∀ x ∈ base, x.1 ≠ p)

/-- A 3-channel PWM bus on pins 4, 5 and 12 on the ESP32 build. -/
def pwmOwnerExample : State :=
  (addAll esp32 State.init [BusConfig.simple TYPE_ANALOG_3CH 0 1 [4, 5, 12]]).getD State.init

/-- A 2-channel PWM descriptor on pins 13 and 5; pin 5 belongs to the bus of
`pwmOwnerExample`. -/
def pwmConflictConfig : BusConfig := BusConfig.simple TYPE_ANALOG_2CH 1 1 [13, 5]

/-! # Theorems -/

/-! ## BusConfig::adjustBounds -/

theorem adjustBounds_eq (P : Platform) (bc : BusConfig) (total : Nat) :
    bc.adjustBounds P total =
      if bc.start ≥ P.MAX_LEDS then
        ({ bc with count := clampedCount P bc.count }, total, false)
      else
        ({ bc with count := fittedCount P bc.start bc.count },
          (if bc.start + fittedCount P bc.start bc.count > total then
            (bc.start + fittedCount P bc.start bc.count) % 65536 else total), true) := by
  unfold BusConfig.adjustBounds fittedCount clampedCount
  by_cases h0 : bc.count = 0
  · by_cases h1 : 1 > P.MAX_LEDS_PER_BUS
    · by_cases h2 : bc.start ≥ P.MAX_LEDS
      · simp [h0, h1, h2]
      · by_cases h3 : bc.start + P.MAX_LEDS_PER_BUS % 65536 > P.MAX_LEDS
        · simp [h0, h1, h2, h3]
        · simp [h0, h1, h2, h3]
    · by_cases h2 : bc.start ≥ P.MAX_LEDS
      · simp [h0, h1, h2]
      · by_cases h3 : bc.start + 1 > P.MAX_LEDS
        · simp [h0, h1, h2, h3]
        · simp [h0, h1, h2, h3]
  · by_cases h1 : bc.count > P.MAX_LEDS_PER_BUS
    · by_cases h2 : bc.start ≥ P.MAX_LEDS
      · simp [h0, h1, h2]
      · by_cases h3 : bc.start + P.MAX_LEDS_PER_BUS % 65536 > P.MAX_LEDS
        · simp [h0, h1, h2, h3]
        · simp [h0, h1, h2, h3]
    · by_cases h2 : bc.start ≥ P.MAX_LEDS
      · simp [h0, h1, h2]
      · by_cases h3 : bc.start + bc.count > P.MAX_LEDS
        · simp [h0, h1, h2, h3]
        · simp [h0, h1, h2, h3]

theorem clampedCount_bounds (P : Platform) (count : Nat) (hc : count < 65536) :
    clampedCount P count = min (max count 1) P.MAX_LEDS_PER_BUS := by
  unfold clampedCount
  simp only [Nat.max_def, Nat.min_def]
  split_ifs <;> omega

theorem fittedCount_eq (P : Platform) (start count : Nat) (hc : count < 65536)
    (hs : start < P.MAX_LEDS) :
    fittedCount P start count
      = min (min (max count 1) P.MAX_LEDS_PER_BUS) (P.MAX_LEDS - start) := by
  unfold fittedCount
  rw [clampedCount_bounds P count hc]
  simp only [Nat.max_def, Nat.min_def]
  split_ifs <;> omega

/-- C5: `BusConfig::adjustBounds` returns false exactly when `start >= MAX_LEDS`
and then leaves `total` unchanged; when it returns true the count becomes
`min(max(count, 1), MAX_LEDS_PER_BUS, MAX_LEDS - start)`, `start` is unchanged
and `total` becomes `max(total, start + new count)`; `total` never decreases.
`count` is a `uint16_t` and `MAX_LEDS` fits the `uint16_t` total. -/
theorem adjustBounds_contract (P : Platform) (bc : BusConfig) (total : Nat)
    (hc : bc.count < 65536) (hM : P.MAX_LEDS ≤ 65535) :
    ((bc.adjustBounds P total).2.2 = false ↔ bc.start ≥ P.MAX_LEDS) ∧
    ((bc.adjustBounds P total).2.2 = false → (bc.adjustBounds P total).2.1 = total) ∧
    ((bc.adjustBounds P total).2.2 = true →
      (bc.adjustBounds P total).1.count
          = min (min (max bc.count 1) P.MAX_LEDS_PER_BUS) (P.MAX_LEDS - bc.start) ∧
      (bc.adjustBounds P total).1.start = bc.start ∧
      (bc.adjustBounds P total).2.1
          = max total (bc.start + (bc.adjustBounds P total).1.count)) ∧
    total ≤ (bc.adjustBounds P total).2.1 := by
  rw [adjustBounds_eq]
  by_cases h2 : bc.start ≥ P.MAX_LEDS
  · simp [h2]
  · simp only [h2, if_false, true_and, reduceCtorEq, false_iff, not_false_eq_true,
      false_implies, forall_true_left]
    rw [fittedCount_eq P bc.start bc.count hc (by omega)]
    refine ⟨?_, ?_⟩
    · split_ifs <;> omega
    · split_ifs <;> omega

/-- Witness for C5 on the ESP8266 build: start 1660, count 10, total 100. -/
theorem adjustBounds_contract_witness :
    (nearEndConfig.count < 65536 ∧ esp8266.MAX_LEDS ≤ 65535) ∧
    (((nearEndConfig.adjustBounds esp8266 100).2.2 = false
        ↔ nearEndConfig.start ≥ esp8266.MAX_LEDS) ∧
    ((nearEndConfig.adjustBounds esp8266 100).2.2 = false →
      (nearEndConfig.adjustBounds esp8266 100).2.1 = 100) ∧
    ((nearEndConfig.adjustBounds esp8266 100).2.2 = true →
      (nearEndConfig.adjustBounds esp8266 100).1.count
          = min (min (max nearEndConfig.count 1) esp8266.MAX_LEDS_PER_BUS)
              (esp8266.MAX_LEDS - nearEndConfig.start) ∧
      (nearEndConfig.adjustBounds esp8266 100).1.start = nearEndConfig.start ∧
      (nearEndConfig.adjustBounds esp8266 100).2.1
          = max 100 (nearEndConfig.start + (nearEndConfig.adjustBounds esp8266 100).1.count)) ∧
    100 ≤ (nearEndConfig.adjustBounds esp8266 100).2.1) :=
  ⟨⟨by decide, by decide⟩,
    adjustBounds_contract esp8266 nearEndConfig 100 (by decide) (by decide)⟩

/-- C6 as stated fails: on the ESP8266 build (`MAX_LEDS` = 1664) a descriptor
with start 2000 and count 5 is rejected and keeps `start + count` = 2005. -/
theorem adjustBounds_rejected_exceeds_max :
    ¬ (((BusConfig.simple TYPE_WS2812_RGB 2000 5 [2]).adjustBounds esp8266 0).1.count ≠ 0 ∧
       ((BusConfig.simple TYPE_WS2812_RGB 2000 5 [2]).adjustBounds esp8266 0).1.start
         + ((BusConfig.simple TYPE_WS2812_RGB 2000 5 [2]).adjustBounds esp8266 0).1.count
         ≤ esp8266.MAX_LEDS) := by
  decide

/-- C6, amended: after `adjustBounds` the count is never 0, and whenever
`adjustBounds` returns true (that is, `start < MAX_LEDS`), `start + count` is at
most `MAX_LEDS`; a rejected descriptor keeps its start, so its `start + count`
stays above `MAX_LEDS`. -/
theorem adjustBounds_invariant (P : Platform) (bc : BusConfig) (total : Nat)
    (hc : bc.count < 65536) (hP : 0 < P.MAX_LEDS_PER_BUS) :
    (bc.adjustBounds P total).1.count ≠ 0 ∧
    ((bc.adjustBounds P total).2.2 = true →
      (bc.adjustBounds P total).1.start + (bc.adjustBounds P total).1.count ≤ P.MAX_LEDS) ∧
    ((bc.adjustBounds P total).2.2 = false →
      P.MAX_LEDS < (bc.adjustBounds P total).1.start + (bc.adjustBounds P total).1.count) := by
  rw [adjustBounds_eq]
  by_cases h2 : bc.start ≥ P.MAX_LEDS
  · simp only [h2, if_true, reduceCtorEq, false_implies, forall_true_left, true_and]
    rw [clampedCount_bounds P bc.count hc]
    simp only [Nat.max_def, Nat.min_def]
    refine ⟨?_, ?_⟩ <;> split_ifs <;> omega
  · simp only [h2, if_false, forall_true_left, reduceCtorEq, false_implies, and_true]
    rw [fittedCount_eq P bc.start bc.count hc (by omega)]
    simp only [Nat.max_def, Nat.min_def]
    refine ⟨?_, ?_⟩ <;> split_ifs <;> omega

/-- Witness for C6 (amended) on the ESP8266 build: start 1660, count 10. -/
theorem adjustBounds_invariant_witness :
    (nearEndConfig.count < 65536 ∧ 0 < esp8266.MAX_LEDS_PER_BUS) ∧
    ((nearEndConfig.adjustBounds esp8266 0).1.count ≠ 0 ∧
    ((nearEndConfig.adjustBounds esp8266 0).2.2 = true →
      (nearEndConfig.adjustBounds esp8266 0).1.start
        + (nearEndConfig.adjustBounds esp8266 0).1.count ≤ esp8266.MAX_LEDS) ∧
    ((nearEndConfig.adjustBounds esp8266 0).2.2 = false →
      esp8266.MAX_LEDS < (nearEndConfig.adjustBounds esp8266 0).1.start
        + (nearEndConfig.adjustBounds esp8266 0).1.count)) :=
  ⟨⟨by decide, by decide⟩,
    adjustBounds_invariant esp8266 nearEndConfig 0 (by decide) (by decide)⟩

/-! ## BusManager::getTotalLength -/

theorem getTotalLengthLoop_mod (l : List Bus) (len : Nat) :
    BusManager.getTotalLengthLoop len l % 65536
      = (len + (l.map Bus.getLength).sum) % 65536 := by
  induction l generalizing len with
  | nil => simp [BusManager.getTotalLengthLoop]
  | cons b rest ih =>
    simp only [BusManager.getTotalLengthLoop, List.map_cons, List.sum_cons]
    rw [ih]
    omega

theorem getTotalLengthLoop_lt (l : List Bus) (len : Nat) (h : len < 65536) :
    BusManager.getTotalLengthLoop len l < 65536 := by
  induction l generalizing len with
  | nil => simpa [BusManager.getTotalLengthLoop] using h
  | cons b rest ih =>
    simp only [BusManager.getTotalLengthLoop]
    exact ih _ (Nat.mod_lt _ (by decide))

/-- C4 as stated fails: for one bus with start 10 and 30 pixels
`getTotalLength()` is 30, while the maximum of `start + getLength()` is 40. -/
theorem getTotalLength_ne_span :
    offsetBusExample.busManager.busses.map (fun b => (b.getStart, b.getLength)) = [(10, 30)] ∧
    offsetBusExample.busManager.getTotalLength = 30 ∧
    totalSpanSpec offsetBusExample.busManager = 40 ∧
    offsetBusExample.busManager.getTotalLength ≠ totalSpanSpec offsetBusExample.busManager := by
  decide

/-- C4, amended: `BusManager::getTotalLength()` is the sum of `getLength()` over
all registered busses, reduced modulo 2^16 (0 for the empty registry); the
start of a bus does not enter. For the single bus with start 0 and count 30 it
is 30, which there is also the maximum of `start + getLength()`. -/
theorem getTotalLength_sum (bm : BusManager) :
    bm.getTotalLength = (bm.busses.map Bus.getLength).sum % 65536 ∧
    BusManager.getTotalLength { busses := [] } = 0 ∧
    (singleBusExample.busManager.busses.map (fun b => (b.getStart, b.getLength)) = [(0, 30)] ∧
     singleBusExample.busManager.getTotalLength = 30 ∧
     totalSpanSpec singleBusExample.busManager = 30) := by
  refine ⟨?_, by decide, by decide⟩
  have h1 := getTotalLengthLoop_mod bm.busses 0
  have h2 := getTotalLengthLoop_lt bm.busses 0 (by decide)
  unfold BusManager.getTotalLength
  rw [Nat.mod_eq_of_lt h2] at h1
  simpa using h1

/-! ## Global pixel dispatch -/

theorem pwm_setPixelColor_base (b : BusPwm) (pix c : Nat) :
    (b.setPixelColor pix c).toBusBase = b.toBusBase := by
  unfold BusPwm.setPixelColor
  split_ifs <;> rfl

theorem network_setPixelColor_base (b : BusNetwork) (pix c : Nat) :
    (b.setPixelColor pix c).toBusBase = b.toBusBase ∧ (b.setPixelColor pix c)._len = b._len := by
  unfold BusNetwork.setPixelColor
  split_ifs <;> exact ⟨rfl, rfl⟩

theorem Bus.setPixelColor_getStart (b : Bus) (pix c : Nat) :
    (b.setPixelColor pix c).getStart = b.getStart := by
  cases b with
  | digital d => rfl
  | pwm d => simp [Bus.setPixelColor, Bus.getStart, Bus.base, pwm_setPixelColor_base]
  | network d =>
    simp [Bus.setPixelColor, Bus.getStart, Bus.base, (network_setPixelColor_base d pix c).1]

theorem Bus.setPixelColor_getLength (b : Bus) (pix c : Nat) :
    (b.setPixelColor pix c).getLength = b.getLength := by
  cases b with
  | digital d => rfl
  | pwm d => rfl
  | network d =>
    simp [Bus.setPixelColor, Bus.getLength, (network_setPixelColor_base d pix c).2]

theorem Bus.setPixelColor_contains (b : Bus) (pix c g : Nat) :
    (b.setPixelColor pix c).contains g = b.contains g := by
  unfold Bus.contains
  rw [Bus.setPixelColor_getStart, Bus.setPixelColor_getLength]

theorem Bus.contains_iff (b : Bus) (g : Nat) :
    b.contains g = true ↔ b.getStart ≤ g ∧ g < b.getStart + b.getLength := by
  unfold Bus.contains
  simp only [Bool.not_eq_true', Bool.or_eq_false_iff, decide_eq_false_iff_not]
  omega

theorem setPixelColorLoop_eq_map (g c : Nat) (hg : g < 65536) (l : List Bus) :
    BusManager.setPixelColorLoop g c l
      = l.map (fun b => if b.contains g then b.setPixelColor (g - b.getStart) c else b) := by
  induction l with
  | nil => rfl
  | cons b rest ih =>
    have hm : (g - b.getStart) % 65536 = g - b.getStart := Nat.mod_eq_of_lt (by omega)
    simp only [BusManager.setPixelColorLoop, List.map_cons, ih, hm]
    by_cases hb : b.contains g = true
    · have hb2 := (Bus.contains_iff b g).1 hb
      have hn : ¬ (g < b.getStart ∨ g ≥ b.getStart + b.getLength) := by omega
      simp [hb, hn]
    · have hb2 : ¬ (b.getStart ≤ g ∧ g < b.getStart + b.getLength) :=
        fun h => hb ((Bus.contains_iff b g).2 h)
      have hn : g < b.getStart ∨ g ≥ b.getStart + b.getLength := by omega
      simp [hb, hn]

theorem getPixelColorLoop_first (g : Nat) (hg : g < 65536) (pre post : List Bus) (b : Bus)
    (hpre : ∀ a ∈ pre, a.contains g = false) (hb : b.contains g = true) :
    BusManager.getPixelColorLoop g (pre ++ b :: post) = b.getPixelColor (g - b.getStart) := by
  induction pre with
  | nil =>
    have hb2 := (Bus.contains_iff b g).1 hb
    have hn : ¬ (g < b.getStart ∨ g ≥ b.getStart + b.getLength) := by omega
    have hm : (g - b.getStart) % 65536 = g - b.getStart := Nat.mod_eq_of_lt (by omega)
    simp [BusManager.getPixelColorLoop, hn, hm]
  | cons a rest ih =>
    have ha : a.contains g = false := hpre a (List.mem_cons_self _ _)
    have ha2 : ¬ (a.getStart ≤ g ∧ g < a.getStart + a.getLength) := by
      intro h
      rw [(Bus.contains_iff a g).2 h] at ha
      exact Bool.noConfusion ha
    have hn : g < a.getStart ∨ g ≥ a.getStart + a.getLength := by omega
    simp only [List.cons_append, BusManager.getPixelColorLoop]
    rw [if_pos (by simpa using hn)]
    exact ih (fun x hx => hpre x (List.mem_cons_of_mem _ hx))

theorem getPixelColorLoop_none (g : Nat) (l : List Bus)
    (h : ∀ a ∈ l, a.contains g = false) :
    BusManager.getPixelColorLoop g l = 0 := by
  induction l with
  | nil => rfl
  | cons a rest ih =>
    have ha : a.contains g = false := h a (List.mem_cons_self _ _)
    have ha2 : ¬ (a.getStart ≤ g ∧ g < a.getStart + a.getLength) := by
      intro h2
      rw [(Bus.contains_iff a g).2 h2] at ha
      exact Bool.noConfusion ha
    have hn : g < a.getStart ∨ g ≥ a.getStart + a.getLength := by omega
    simp only [BusManager.getPixelColorLoop]
    rw [if_pos (by simpa using hn)]
    exact ih (fun x hx => h x (List.mem_cons_of_mem _ hx))

theorem map_write_of_not_contains (g c : Nat) (l : List Bus)
    (h : ∀ a ∈ l, a.contains g = false) :
    l.map (fun b => if b.contains g then b.setPixelColor (g - b.getStart) c else b) = l := by
  induction l with
  | nil => rfl
  | cons a rest ih =>
    have ha : a.contains g = false := h a (List.mem_cons_self _ _)
    simp only [List.map_cons, ha]
    rw [ih (fun x hx => h x (List.mem_cons_of_mem _ hx))]
    simp

/-- C1 as stated fails: with two busses that both cover `[0,10)`,
`setPixelColor(3, 0x00FF00)` also writes to the later bus (index 1), whose
state changes and which then reads the colour back at local index 3. -/
theorem setPixelColor_reaches_later_overlapping_bus :
    overlapExample.busManager.busses.map (fun b => (b.getStart, b.getLength))
      = [(0, 10), (0, 10)] ∧
    (overlapExample.busManager.setPixelColor 3 0x00FF00).busses[1]?
      ≠ overlapExample.busManager.busses[1]? ∧
    ((overlapExample.busManager.setPixelColor 3 0x00FF00).busses[1]?).map
      (fun b => b.getPixelColor 3) = some 0x00FF00 := by
  decide

/-- C1, amended: `BusManager::setPixelColor(g, c)` forwards the write to every
bus whose interval `[start, start+length)` contains `g` (`Bus.contains`), each at
local index `g - start`, and leaves every other bus unchanged; when only one bus
contains `g` this is a write to exactly that bus. `getPixelColor(g)` reads from
the first bus in registration order that contains `g`, at local index
`g - start`, and returns 0 when no bus contains `g` (in which case
`setPixelColor` changes nothing). -/
theorem dispatch_set_all_get_first (bm : BusManager) (g c : Nat) (hg : g < 65536) :
    (bm.setPixelColor g c).busses
      = bm.busses.map
          (fun b => if b.contains g then b.setPixelColor (g - b.getStart) c else b) ∧
    (∀ pre b post, bm.busses = pre ++ b :: post →
      (∀ a ∈ pre, a.contains g = false) → b.contains g = true →
        (b.getStart ≤ g ∧ g < b.getStart + b.getLength) ∧
        bm.getPixelColor g = b.getPixelColor (g - b.getStart) ∧
        ((∀ a ∈ post, a.contains g = false) →
          (bm.setPixelColor g c).busses
            = pre ++ b.setPixelColor (g - b.getStart) c :: post)) ∧
    ((∀ a ∈ bm.busses, a.contains g = false) →
      bm.getPixelColor g = 0 ∧ bm.setPixelColor g c = bm) := by
  have hmap := setPixelColorLoop_eq_map g c hg bm.busses
  refine ⟨hmap, ?_, ?_⟩
  · intro pre b post hbm hpre hb
    refine ⟨(Bus.contains_iff b g).1 hb, ?_, ?_⟩
    · unfold BusManager.getPixelColor
      rw [hbm]
      exact getPixelColorLoop_first g hg pre post b hpre hb
    · intro hpost
      show BusManager.setPixelColorLoop g c bm.busses = _
      rw [hmap, hbm, List.map_append, List.map_cons,
        map_write_of_not_contains g c pre hpre, map_write_of_not_contains g c post hpost]
      simp [hb]
  · intro hall
    refine ⟨getPixelColorLoop_none g bm.busses hall, ?_⟩
    show ({ busses := BusManager.setPixelColorLoop g c bm.busses } : BusManager) = bm
    rw [hmap, map_write_of_not_contains g c bm.busses hall]

/-- Witness for C1 (amended): index 15 in the registry with busses `[0,10)` and
`[10,20)`. -/
theorem dispatch_set_all_get_first_witness :
    (15 < 65536) ∧
    (adjacentExample.busManager.setPixelColor 15 0x00FF00).busses
      = adjacentExample.busManager.busses.map
          (fun b => if b.contains 15 then b.setPixelColor (15 - b.getStart) 0x00FF00 else b) :=
  ⟨by decide, (dispatch_set_all_get_first adjacentExample.busManager 15 0x00FF00 (by decide)).1⟩

theorem map_write_contains (g c h : Nat) (l : List Bus)
    (hl : ∀ a ∈ l, a.contains h = false) :
    ∀ a ∈ l.map (fun b => if b.contains g then b.setPixelColor (g - b.getStart) c else b),
      a.contains h = false := by
  intro a ha
  obtain ⟨x, hx, rfl⟩ := List.mem_map.1 ha
  by_cases hxg : x.contains g = true
  · simp only [hxg, if_true, Bus.setPixelColor_contains]
    exact hl x hx
  · simp only [hxg, Bool.false_eq_true, if_false]
    exact hl x hx

/-- The part of C2 that holds for every registry: a write at `g` leaves every
bus that does not contain `g` unchanged, and it leaves `getPixelColor(h)`
unchanged whenever the first bus containing `h` does not contain `g`. -/
theorem write_keeps_read_of_other_bus (bm : BusManager) (g c h : Nat) (hg : g < 65536)
    (hh : h < 65536) (pre post : List Bus) (b : Bus) (hbm : bm.busses = pre ++ b :: post)
    (hpre : ∀ a ∈ pre, a.contains h = false) (hbh : b.contains h = true)
    (hbg : b.contains g = false) :
    (bm.setPixelColor g c).busses
      = pre.map (fun x => if x.contains g then x.setPixelColor (g - x.getStart) c else x)
        ++ b :: post.map
          (fun x => if x.contains g then x.setPixelColor (g - x.getStart) c else x) ∧
    (bm.setPixelColor g c).getPixelColor h = bm.getPixelColor h := by
  have e : BusManager.setPixelColorLoop g c bm.busses
      = pre.map (fun x => if x.contains g then x.setPixelColor (g - x.getStart) c else x)
        ++ b :: post.map
          (fun x => if x.contains g then x.setPixelColor (g - x.getStart) c else x) := by
    rw [setPixelColorLoop_eq_map g c hg, hbm, List.map_append, List.map_cons]
    simp [hbg]
  refine ⟨e, ?_⟩
  show BusManager.getPixelColorLoop h (BusManager.setPixelColorLoop g c bm.busses)
    = BusManager.getPixelColorLoop h bm.busses
  rw [e, hbm, getPixelColorLoop_first h hh _ _ b (map_write_contains g c h pre hpre) hbh,
    getPixelColorLoop_first h hh pre post b hpre hbh]

/-- C2 fails on the code at this input: the registry holds a network bus of
30000 pixels at start 0, then bus A = `[21846, 21847)` and bus B = `[0, 1)`,
whose intervals are disjoint. `setPixelColor(21846, 0xFF0000)` (an index inside
A) leaves the state of B unchanged, yet `getPixelColor(0)` (an index inside B)
changes from 0 to 0x0000FF: the network bus is the first bus containing either
index, and its 16-bit byte offset `21846 * 3` wraps to 2, inside the bytes of
pixel 0. The scenario of the claim holds: with busses `[0,10)` and `[10,20)`,
`setPixelColor(15, X)` changes only the second bus, at local index 5. -/
theorem disjoint_busses_interfere_on_offset_wrap :
    interferenceExample.busManager.busses.map (fun b => (b.getStart, b.getLength, b.isOk))
      = [(0, 30000, true), (21846, 1, true), (0, 1, true)] ∧
    (interferenceExample.busManager.setPixelColor 21846 0xFF0000).busses[2]?
      = interferenceExample.busManager.busses[2]? ∧
    interferenceExample.busManager.getPixelColor 0 = 0 ∧
    (interferenceExample.busManager.setPixelColor 21846 0xFF0000).getPixelColor 0 = 0x0000FF ∧
    (adjacentExample.busManager.busses.map (fun b => (b.getStart, b.getLength))
        = [(0, 10), (10, 10)] ∧
      (adjacentExample.busManager.setPixelColor 15 0xABCDEF).busses[0]?
        = adjacentExample.busManager.busses[0]? ∧
      (adjacentExample.busManager.setPixelColor 15 0xABCDEF).busses[1]?
        = (adjacentExample.busManager.busses[1]?).map (fun b => b.setPixelColor 5 0xABCDEF) ∧
      (adjacentExample.busManager.setPixelColor 15 0xABCDEF).getPixelColor 15 = 0xABCDEF ∧
      (adjacentExample.busManager.setPixelColor 15 0xABCDEF).getPixelColor 5
        = adjacentExample.busManager.getPixelColor 5) := by
  decide

/-! ## BusDigital -/

theorem BusDigital.new_valid (P : Platform) (pm : PinManager) (bc : BusConfig) (nr : Nat)
    (hv : (BusDigital.new P pm bc nr).2._valid = true) :
    (BusDigital.new P pm bc nr).2.hasDriver = true ∧
    (BusDigital.new P pm bc nr).2._len = (bc.count + bc.skipAmount) % 65536 ∧
    (BusDigital.new P pm bc nr).2._skip = bc.skipAmount ∧
    (BusDigital.new P pm bc nr).2.reversed = bc.reversed ∧
    (BusDigital.new P pm bc nr).2._colorOrder = bc.colorOrder := by
  revert hv
  unfold BusDigital.new BusDigital.hasDriver
  simp only []
  split_ifs <;> simp_all [BusDigital.cleanup]

theorem driver_get_set (ptr : Option Driver) (t p c co : Nat)
    (hp : ptr.isSome = true) (ht : (t != I_NONE) = true) :
    PolyBus.getPixelColor (PolyBus.setPixelColor ptr t p c co) t p co = c := by
  cases ptr with
  | none => simp at hp
  | some d =>
    have ht2 : (t == I_NONE) = false := by simpa [bne] using ht
    simp [PolyBus.getPixelColor, PolyBus.setPixelColor, ht2, List.find?]

theorem busDigital_get_set (b : BusDigital) (hd : b.hasDriver = true) (i c : Nat) :
    (b.setPixelColor i c).getPixelColor i = c := by
  unfold BusDigital.hasDriver at hd
  simp only [Bool.and_eq_true] at hd
  exact driver_get_set b._busPtr b._iType (b.physical i) c b._colorOrder hd.1 hd.2

theorem registry_get_set (bm : BusManager) (pre post : List Bus) (b : BusDigital) (g c : Nat)
    (hg : g < 65536) (hbm : bm.busses = pre ++ Bus.digital b :: post)
    (hpre : ∀ a ∈ pre, a.contains g = false) (hb : (Bus.digital b).contains g = true)
    (hd : b.hasDriver = true) :
    (bm.setPixelColor g c).getPixelColor g = c := by
  show BusManager.getPixelColorLoop g (BusManager.setPixelColorLoop g c bm.busses) = c
  rw [setPixelColorLoop_eq_map g c hg, hbm, List.map_append, List.map_cons,
    map_write_of_not_contains g c pre hpre]
  simp only [hb, if_true]
  rw [getPixelColorLoop_first g hg pre _ _ hpre
    (by rw [Bus.setPixelColor_contains]; exact hb), Bus.setPixelColor_getStart]
  exact busDigital_get_set b hd _ c

/-- C3: for a `BusDigital` that holds a driver (every bus its constructor left
valid does), in either direction and with any skip amount, `setPixelColor(i, c)`
followed by `getPixelColor(i)` returns `c`: both hand the same physical index
and the same stored colour order to the driver, which is modelled as a store
returning the colour last written at that index with that colour order. The
same holds through the registry when the bus is the first one containing the
global index, e.g. after adding one single-wire RGB descriptor with start 0 and
count 30, `setPixelColor(5, 0x00FF00)` then `getPixelColor(5)` gives 0x00FF00. -/
theorem busDigital_set_get_roundtrip (b : BusDigital) (hd : b.hasDriver = true) :
    (∀ i c, i < b.getLength →
      (b.setPixelColor i c).getPixelColor i = c ∧
      (b.setPixelColor i c)._busPtr
        = PolyBus.setPixelColor b._busPtr b._iType (b.physical i) c b._colorOrder ∧
      b.getPixelColor i = PolyBus.getPixelColor b._busPtr b._iType (b.physical i) b._colorOrder) ∧
    (∀ (bm : BusManager) (pre post : List Bus) (g c : Nat), g < 65536 →
      bm.busses = pre ++ Bus.digital b :: post →
      (∀ a ∈ pre, a.contains g = false) → (Bus.digital b).contains g = true →
      (bm.setPixelColor g c).getPixelColor g = c) ∧
    (∀ (P : Platform) (pm : PinManager) (bc : BusConfig) (nr : Nat),
      (BusDigital.new P pm bc nr).2._valid = true →
      (BusDigital.new P pm bc nr).2.hasDriver = true) ∧
    (singleBusExample.busManager.busses.map (fun x => (x.getType, x.getStart, x.getLength, x.isOk))
        = [(TYPE_WS2812_RGB, 0, 30, true)] ∧
      (singleBusExample.busManager.setPixelColor 5 0x00FF00).getPixelColor 5 = 0x00FF00) := by
  refine ⟨fun i c _ => ⟨busDigital_get_set b hd i c, rfl, rfl⟩, ?_, ?_, by decide⟩
  · intro bm pre post g c hg hbm hpre hb
    exact registry_get_set bm pre post b g c hg hbm hpre hb hd
  · intro P pm bc nr hv
    exact (BusDigital.new_valid P pm bc nr hv).1

/-- Witness for C3: the reversed bus with two skipped pixels. -/
theorem busDigital_set_get_roundtrip_witness :
    reversedSkipExample.hasDriver = true ∧
    (reversedSkipExample.setPixelColor 9 0x00FF00).getPixelColor 9 = 0x00FF00 :=
  ⟨by decide, ((busDigital_set_get_roundtrip reversedSkipExample (by decide)).1 9 0x00FF00
    (by decide)).1⟩

theorem BusDigital.new_physical (P : Platform) (pm : PinManager) (bc : BusConfig) (nr : Nat)
    (hv : (BusDigital.new P pm bc nr).2._valid = true) (i : Nat) :
    (BusDigital.new P pm bc nr).2.physical i
      = if bc.reversed then ((bc.count + bc.skipAmount) % 65536 + 65536 - i - 1) % 65536
        else (i + bc.skipAmount) % 65536 := by
  obtain ⟨_, h1, h2, h3, _⟩ := BusDigital.new_valid P pm bc nr hv
  unfold BusDigital.physical
  rw [h1, h2, h3]

theorem BusDigital.new_getLength (P : Platform) (pm : PinManager) (bc : BusConfig) (nr : Nat)
    (hv : (BusDigital.new P pm bc nr).2._valid = true) :
    (BusDigital.new P pm bc nr).2.getLength
      = ((bc.count + bc.skipAmount) % 65536 + 65536 - bc.skipAmount) % 65536 := by
  obtain ⟨_, h1, h2, _, _⟩ := BusDigital.new_valid P pm bc nr hv
  unfold BusDigital.getLength
  rw [h1, h2]

/-- C7: for a valid `BusDigital` built from a descriptor whose
`count + skipAmount` fits in 16 bits, `getLength()` is `count`, and for every
logical index `i < getLength()`, reversed or not, the physical index that
`setPixelColor` and `getPixelColor` hand to the driver lies in
`[skipAmount, count + skipAmount)`. -/
theorem skip_pixels_unreachable (P : Platform) (pm : PinManager) (bc : BusConfig) (nr : Nat)
    (hv : (BusDigital.new P pm bc nr).2._valid = true)
    (hfit : bc.count + bc.skipAmount < 65536) :
    (BusDigital.new P pm bc nr).2.getLength = bc.count ∧
    ∀ i, i < (BusDigital.new P pm bc nr).2.getLength →
      (bc.skipAmount ≤ (BusDigital.new P pm bc nr).2.physical i ∧
       (BusDigital.new P pm bc nr).2.physical i < bc.count + bc.skipAmount) ∧
      ∀ c, ((BusDigital.new P pm bc nr).2.setPixelColor i c)._busPtr
          = PolyBus.setPixelColor (BusDigital.new P pm bc nr).2._busPtr
              (BusDigital.new P pm bc nr).2._iType ((BusDigital.new P pm bc nr).2.physical i) c
              (BusDigital.new P pm bc nr).2._colorOrder ∧
        (BusDigital.new P pm bc nr).2.getPixelColor i
          = PolyBus.getPixelColor (BusDigital.new P pm bc nr).2._busPtr
              (BusDigital.new P pm bc nr).2._iType ((BusDigital.new P pm bc nr).2.physical i)
              (BusDigital.new P pm bc nr).2._colorOrder := by
  have hl : (BusDigital.new P pm bc nr).2.getLength = bc.count := by
    rw [BusDigital.new_getLength P pm bc nr hv]; omega
  refine ⟨hl, fun i hi => ⟨?_, fun c => ⟨rfl, rfl⟩⟩⟩
  rw [hl] at hi
  rw [BusDigital.new_physical P pm bc nr hv]
  split_ifs <;> omega

/-- Witness for C7: ten visible pixels behind two skipped ones on the ESP32
build. -/
theorem skip_pixels_unreachable_witness :
    ((BusDigital.new esp32 State.init.pinManager skipConfig 0).2._valid = true ∧
      skipConfig.count + skipConfig.skipAmount < 65536) ∧
    (BusDigital.new esp32 State.init.pinManager skipConfig 0).2.getLength = skipConfig.count :=
  ⟨⟨by decide, by decide⟩,
    (skip_pixels_unreachable esp32 State.init.pinManager skipConfig 0 (by decide) (by decide)).1⟩

/-- C8 as stated fails: the reversed bus with 10 visible and 2 skipped pixels
maps logical index 0 to physical index 11 (not 10 - 0 - 1 = 9) and logical index
9 to physical index 2 (not 0). -/
theorem reversed_index_counts_skipped_pixels :
    reversedSkipExample._valid = true ∧ reversedSkipExample.reversed = true ∧
    reversedSkipExample.getLength = 10 ∧
    reversedSkipExample.physical 0 = 11 ∧
    reversedSkipExample.physical 0 ≠ reversedSkipExample.getLength - 0 - 1 ∧
    reversedSkipExample.physical 9 = 2 ∧ reversedSkipExample.physical 9 ≠ 0 := by
  decide

/-- C8, amended: for a valid reversed `BusDigital` with visible length
`N = getLength()` and `count + skipAmount` fitting in 16 bits, `setPixelColor`
and `getPixelColor` translate logical index `i < N` to physical index
`N + skipAmount - i - 1` (that is, `_len - i - 1`): logical 0 maps to
`N + skipAmount - 1` and logical `N-1` to `skipAmount`. This is `N - i - 1`
exactly when `skipAmount` is 0. -/
theorem reversed_index_translation (P : Platform) (pm : PinManager) (bc : BusConfig) (nr : Nat)
    (hv : (BusDigital.new P pm bc nr).2._valid = true) (hrev : bc.reversed = true)
    (hfit : bc.count + bc.skipAmount < 65536) :
    (BusDigital.new P pm bc nr).2.reversed = true ∧
    (BusDigital.new P pm bc nr).2._skip = bc.skipAmount ∧
    (∀ i, i < (BusDigital.new P pm bc nr).2.getLength →
      (BusDigital.new P pm bc nr).2.physical i
        = (BusDigital.new P pm bc nr).2.getLength + bc.skipAmount - i - 1 ∧
      ((BusDigital.new P pm bc nr).2.physical i
        = (BusDigital.new P pm bc nr).2.getLength - i - 1 ↔ bc.skipAmount = 0) ∧
      ∀ c, ((BusDigital.new P pm bc nr).2.setPixelColor i c)._busPtr
          = PolyBus.setPixelColor (BusDigital.new P pm bc nr).2._busPtr
              (BusDigital.new P pm bc nr).2._iType ((BusDigital.new P pm bc nr).2.physical i) c
              (BusDigital.new P pm bc nr).2._colorOrder ∧
        (BusDigital.new P pm bc nr).2.getPixelColor i
          = PolyBus.getPixelColor (BusDigital.new P pm bc nr).2._busPtr
              (BusDigital.new P pm bc nr).2._iType ((BusDigital.new P pm bc nr).2.physical i)
              (BusDigital.new P pm bc nr).2._colorOrder) ∧
    (0 < (BusDigital.new P pm bc nr).2.getLength →
      (BusDigital.new P pm bc nr).2.physical 0
        = (BusDigital.new P pm bc nr).2.getLength + bc.skipAmount - 1 ∧
      (BusDigital.new P pm bc nr).2.physical ((BusDigital.new P pm bc nr).2.getLength - 1)
        = bc.skipAmount) := by
  obtain ⟨_, _, h2, h3, _⟩ := BusDigital.new_valid P pm bc nr hv
  have hl : (BusDigital.new P pm bc nr).2.getLength = bc.count := by
    rw [BusDigital.new_getLength P pm bc nr hv]; omega
  refine ⟨by rw [h3, hrev], h2, ?_, ?_⟩
  · intro i hi
    rw [hl] at hi
    have hp := BusDigital.new_physical P pm bc nr hv i
    rw [hrev] at hp
    simp only [if_true] at hp
    refine ⟨?_, ?_, fun c => ⟨rfl, rfl⟩⟩
    · rw [hl, hp]; omega
    · rw [hl, hp]; omega
  · intro h0
    rw [hl] at h0
    rw [hl, BusDigital.new_physical P pm bc nr hv, BusDigital.new_physical P pm bc nr hv, hrev]
    simp only [if_true]
    omega

/-- Witness for C8 (amended): ten visible pixels behind two skipped ones,
reversed, on the ESP32 build. -/
theorem reversed_index_translation_witness :
    ((BusDigital.new esp32 State.init.pinManager reversedSkipConfig 0).2._valid = true ∧
      reversedSkipConfig.reversed = true ∧
      reversedSkipConfig.count + reversedSkipConfig.skipAmount < 65536) ∧
    (BusDigital.new esp32 State.init.pinManager reversedSkipConfig 0).2.reversed = true :=
  ⟨⟨by decide, by decide, by decide⟩,
    (reversed_index_translation esp32 State.init.pinManager reversedSkipConfig 0
      (by decide) (by decide) (by decide)).1⟩

/-! ## BusManager::add -/

theorem BusPwm.deallocateLoop_some (P : Platform) (pins : List Nat) (n i : Nat) (pm : PinManager)
    (h : i + n ≤ pins.length) :
    ∃ pm1, BusPwm.deallocateLoop P pins i n pm = some pm1 := by
  induction n generalizing i pm with
  | zero => exact ⟨pm, rfl⟩
  | succ n ih =>
    have hi : i < pins.length := by omega
    simp only [BusPwm.deallocateLoop, List.getElem?_eq_getElem hi]
    exact ih (i + 1) _ (by omega)

theorem BusPwm.deallocatePins_some (P : Platform) (pm : PinManager) (b : BusPwm)
    (h : NUM_PWM_PINS b._type ≤ b._pins.length) :
    ∃ pm1, b.deallocatePins P pm = some pm1 := by
  obtain ⟨pm1, h1⟩ := BusPwm.deallocateLoop_some P b._pins (NUM_PWM_PINS b._type) 0 pm (by omega)
  unfold BusPwm.deallocatePins
  simp only [h1]
  split_ifs
  · exact ⟨_, rfl⟩
  · exact ⟨_, rfl⟩

theorem BusPwm.allocateLoop_keeps (P : Platform) (bc : BusConfig) (n i : Nat) (pm : PinManager)
    (b : BusPwm) :
    (BusPwm.allocateLoop P bc i n pm b).2.1._pins.length = b._pins.length ∧
    (BusPwm.allocateLoop P bc i n pm b).2.1._type = b._type ∧
    (BusPwm.allocateLoop P bc i n pm b).2.1._start = b._start := by
  induction n generalizing i pm b with
  | zero => exact ⟨rfl, rfl, rfl⟩
  | succ n ih =>
    simp only [BusPwm.allocateLoop]
    split_ifs
    · exact ⟨rfl, rfl, rfl⟩
    · have h := ih (i + 1) (pm.allocatePin P (bc.pins.getD i 255) PinOwner.BusPwm).1
        { b with _pins := b._pins.set i (bc.pins.getD i 255) }
      simpa using h

theorem NUM_PWM_PINS_le (t : Nat) (h : IS_PWM t = true) : 1 ≤ NUM_PWM_PINS t ∧ NUM_PWM_PINS t ≤ 5 := by
  unfold IS_PWM at h
  simp only [Bool.and_eq_true, decide_eq_true_eq] at h
  unfold NUM_PWM_PINS
  omega

theorem BusPwm.new_some (P : Platform) (pm : PinManager) (bc : BusConfig) :
    ∃ pm1 b, BusPwm.new P pm bc = some (pm1, b) ∧ b._type = bc.type ∧ b._start = bc.start ∧
      b._pins.length = 5 := by
  have key : ∀ (PM : PinManager) (B : BusPwm), B._type = bc.type → B._start = bc.start →
      B._pins.length = 5 → NUM_PWM_PINS bc.type ≤ 5 →
      ∃ pm1 b, Option.map (fun q => (q, B)) (B.deallocatePins P PM) = some (pm1, b) ∧
        b._type = bc.type ∧ b._start = bc.start ∧ b._pins.length = 5 := by
    intro PM B ht hs hl hn
    obtain ⟨pm1, e⟩ := BusPwm.deallocatePins_some P PM B (by rw [ht, hl]; exact hn)
    exact ⟨pm1, B, by rw [e]; rfl, ht, hs, hl⟩
  unfold BusPwm.new
  simp only []
  by_cases hp : IS_PWM bc.type = true
  · have hn := NUM_PWM_PINS_le bc.type hp
    simp only [hp, Bool.not_true, Bool.false_eq_true, if_false]
    generalize (if P.esp8266 = true then (pm, 255)
      else pm.allocateLedc (NUM_PWM_PINS bc.type)) = rl
    generalize hb0 :
      ({ _type := bc.type, _start := bc.start, _valid := false, _ledcStart := rl.2 } : BusPwm)
        = b0
    have t0 : b0._type = bc.type := by rw [← hb0]
    have s0 : b0._start = bc.start := by rw [← hb0]
    have l0 : b0._pins.length = 5 := by rw [← hb0]; rfl
    obtain ⟨k1, k2, k3⟩ := BusPwm.allocateLoop_keeps P bc (NUM_PWM_PINS bc.type) 0 rl.1 b0
    generalize BusPwm.allocateLoop P bc 0 (NUM_PWM_PINS bc.type) rl.1 b0 = r at k1 k2 k3 ⊢
    split_ifs with h1 h2
    · exact key _ _ t0 s0 l0 hn.2
    · exact key _ _ (k2.trans t0) (k3.trans s0) (k1.trans l0) hn.2
    · exact ⟨_, _, rfl, k2.trans t0, k3.trans s0, k1.trans l0⟩
  · simp only [hp, Bool.not_false, if_true]
    exact ⟨_, _, rfl, rfl, rfl, rfl⟩

theorem getBus_append (l : List Bus) (bus : Bus) :
    (∀ i, i < l.length →
      BusManager.getBus { busses := l ++ [bus] } i = BusManager.getBus { busses := l } i) ∧
    BusManager.getBus { busses := l ++ [bus] } l.length = some bus := by
  refine ⟨?_, ?_⟩
  · intro i hi
    have h1 : ¬ (i ≥ (l ++ [bus]).length) := by simp; omega
    have h2 : ¬ (i ≥ l.length) := by omega
    simp only [BusManager.getBus, BusManager.getNumBusses, h1, h2, if_false]
    exact List.getElem?_append_left hi
  · have h1 : ¬ (l.length ≥ (l ++ [bus]).length) := by simp
    simp only [BusManager.getBus, BusManager.getNumBusses, h1, if_false]
    simp

/-- C9: if the registry already holds `WLED_MAX_BUSSES` busses, `BusManager::add`
returns -1 and leaves the whole state (bus array, bus count, pin ledger)
unchanged; otherwise it returns the previous bus count `n`, the new count is
`n + 1`, `getBus(i)` is unchanged for `i < n`, and `getBus(n)` is the bus that
the constructor selected by the type built, valid or not: `BusNetwork` for
types 80..95, else `BusDigital` when `IS_DIGITAL`, else `BusPwm`. -/
theorem add_contract (P : Platform) (s : State) (bc : BusConfig) :
    (s.busManager.getNumBusses ≥ P.WLED_MAX_BUSSES → BusManager.add P s bc = some (s, -1)) ∧
    (s.busManager.getNumBusses < P.WLED_MAX_BUSSES →
      ∃ pm bus,
        BusManager.add P s bc
          = some ({ pinManager := pm, busManager := { busses := s.busManager.busses ++ [bus] } },
              (s.busManager.getNumBusses : Int)) ∧
        BusManager.getNumBusses { busses := s.busManager.busses ++ [bus] }
          = s.busManager.getNumBusses + 1 ∧
        (∀ i, i < s.busManager.getNumBusses →
          BusManager.getBus { busses := s.busManager.busses ++ [bus] } i
            = s.busManager.getBus i) ∧
        BusManager.getBus { busses := s.busManager.busses ++ [bus] } s.busManager.getNumBusses
          = some bus ∧
        bus.getType = bc.type ∧ bus.getStart = bc.start ∧
        ((bc.type ≥ TYPE_NET_DDP_RGB ∧ bc.type < 96) →
          bus = Bus.network (BusNetwork.new P bc) ∧ pm = s.pinManager) ∧
        (¬ (bc.type ≥ TYPE_NET_DDP_RGB ∧ bc.type < 96) → IS_DIGITAL bc.type = true →
          bus = Bus.digital (BusDigital.new P s.pinManager bc s.busManager.getNumBusses).2 ∧
          pm = (BusDigital.new P s.pinManager bc s.busManager.getNumBusses).1) ∧
        (¬ (bc.type ≥ TYPE_NET_DDP_RGB ∧ bc.type < 96) → IS_DIGITAL bc.type = false →
          ∃ b, BusPwm.new P s.pinManager bc = some (pm, b) ∧ bus = Bus.pwm b)) := by
  refine ⟨?_, ?_⟩
  · intro hfull
    unfold BusManager.add
    simp only [hfull, if_true]
  · intro hroom
    have hn : ¬ (s.busManager.getNumBusses ≥ P.WLED_MAX_BUSSES) := by omega
    have g1 := getBus_append s.busManager.busses
    unfold BusManager.add
    simp only [hn, if_false]
    by_cases hnet : bc.type ≥ TYPE_NET_DDP_RGB ∧ bc.type < 96
    · have hc : (decide (bc.type ≥ TYPE_NET_DDP_RGB) && decide (bc.type < 96)) = true := by
        simpa using hnet
      simp only [hc, if_true, Option.map_some']
      refine ⟨s.pinManager, Bus.network (BusNetwork.new P bc), rfl, by simp [BusManager.getNumBusses],
        fun i hi => (g1 _).1 i hi, (g1 _).2, ?_, ?_, fun _ => ⟨rfl, rfl⟩,
        fun h => absurd hnet h, fun h => absurd hnet h⟩
      · unfold BusNetwork.new; simp only []; split_ifs <;> rfl
      · unfold BusNetwork.new; simp only []; split_ifs <;> rfl
    · have hc : (decide (bc.type ≥ TYPE_NET_DDP_RGB) && decide (bc.type < 96)) = false := by
        simpa using hnet
      by_cases hdig : IS_DIGITAL bc.type = true
      · simp only [hc, hdig, if_true, Bool.false_eq_true, if_false, Option.map_some']
        refine ⟨_, _, rfl, by simp [BusManager.getNumBusses],
          fun i hi => (g1 _).1 i hi, (g1 _).2, ?_, ?_, fun h => absurd h hnet,
          fun _ _ => ⟨rfl, rfl⟩, fun _ h => ?_⟩
        · unfold BusDigital.new; simp only []; split_ifs <;> rfl
        · unfold BusDigital.new; simp only []; split_ifs <;> rfl
        · exact Bool.noConfusion h
      · obtain ⟨pm1, b, e, ht, hs, _⟩ := BusPwm.new_some P s.pinManager bc
        simp only [hc, hdig, Bool.false_eq_true, if_false, e, Option.map_some']
        refine ⟨pm1, Bus.pwm b, rfl, by simp [BusManager.getNumBusses],
          fun i hi => (g1 _).1 i hi, (g1 _).2, ht, hs, fun h => absurd h hnet,
          fun _ h => h.elim, fun _ _ => ⟨b, rfl, rfl⟩⟩

/-- Witness for C9: on the ESP8266 build (three busses at most) `add` on a full
registry returns -1 and changes nothing; and adding a descriptor whose data pin
is already claimed appends an invalid bus and returns the old count 1. -/
theorem add_contract_witness :
    (fullExample.busManager.getNumBusses ≥ esp8266.WLED_MAX_BUSSES ∧
      BusManager.add esp8266 fullExample conflictConfig = some (fullExample, -1)) ∧
    (singleBusExample.busManager.getNumBusses < esp32.WLED_MAX_BUSSES ∧
      (BusManager.add esp32 singleBusExample conflictConfig).map
        (fun r => (r.2, r.1.busManager.getNumBusses, r.1.pinManager == singleBusExample.pinManager,
          (r.1.busManager.getBus 1).map Bus.isOk)) = some (1, 2, true, some false)) :=
  ⟨⟨by decide, (add_contract esp8266 fullExample conflictConfig).1 (by decide)⟩,
    ⟨by decide, by decide⟩⟩

/-! ## BusManager::removeAll -/

theorem canAllShowLoop_iff (l : List Bus) :
    BusManager.canAllShowLoop l = true ↔ ∀ b ∈ l, b.canShow = true := by
  induction l with
  | nil => simp [BusManager.canAllShowLoop]
  | cons a rest ih =>
    simp only [BusManager.canAllShowLoop, List.mem_cons, forall_eq_or_imp]
    by_cases ha : a.canShow = true
    · simp [ha, ih]
    · simp [ha]

theorem waitLoop_some (yield : Nat → State → State) (fuel k : Nat) (s s1 : State)
    (h : BusManager.waitLoop yield fuel k s = some s1) :
    s1.busManager.canAllShow = true ∧
    ∃ j, j ≤ fuel ∧ s1 = afterYields yield k j s ∧
      ∀ i, i < j → (afterYields yield k i s).busManager.canAllShow = false := by
  induction fuel generalizing k s with
  | zero =>
    unfold BusManager.waitLoop at h
    by_cases hc : s.busManager.canAllShow = true
    · simp only [hc, Bool.not_true, Bool.false_eq_true, if_false, Option.some.injEq] at h
      subst h
      exact ⟨hc, 0, le_refl _, rfl, fun i hi => absurd hi (Nat.not_lt_zero i)⟩
    · simp [hc] at h
  | succ fuel ih =>
    unfold BusManager.waitLoop at h
    by_cases hc : s.busManager.canAllShow = true
    · simp only [hc, Bool.not_true, Bool.false_eq_true, if_false, Option.some.injEq] at h
      subst h
      exact ⟨hc, 0, Nat.zero_le _, rfl, fun i hi => absurd hi (Nat.not_lt_zero i)⟩
    · have hf : s.busManager.canAllShow = false := by simpa using hc
      simp only [hf, Bool.not_false, if_true] at h
      obtain ⟨h1, j, hj, e, hall⟩ := ih (k + 1) (yield k s) h
      refine ⟨h1, j + 1, by omega, e, ?_⟩
      intro i hi
      cases i with
      | zero => exact hf
      | succ i => exact hall i (by omega)

theorem waitLoop_progress (yield : Nat → State → State) (fuel k j : Nat) (s : State)
    (hj : j ≤ fuel) (h : (afterYields yield k j s).busManager.canAllShow = true) :
    ∃ s1, BusManager.waitLoop yield fuel k s = some s1 := by
  induction fuel generalizing k j s with
  | zero =>
    have hj0 : j = 0 := by omega
    subst hj0
    have hs : s.busManager.canAllShow = true := h
    exact ⟨s, by simp [BusManager.waitLoop, hs]⟩
  | succ fuel ih =>
    by_cases hc : s.busManager.canAllShow = true
    · exact ⟨s, by simp [BusManager.waitLoop, hc]⟩
    · have hf : s.busManager.canAllShow = false := by simpa using hc
      cases j with
      | zero => exact absurd h hc
      | succ j =>
        obtain ⟨s1, e⟩ := ih (k + 1) j (yield k s) (by omega) h
        exact ⟨s1, by simp [BusManager.waitLoop, hf, e]⟩

theorem deleteLoop_some (P : Platform) (l : List Bus) (pm : PinManager)
    (h : ∀ b ∈ l, b.pinsInBounds = true) :
    ∃ pm1, BusManager.deleteLoop P pm l = some pm1 := by
  induction l generalizing pm with
  | nil => exact ⟨pm, rfl⟩
  | cons a rest ih =>
    have ha := h a (List.mem_cons_self _ _)
    have hd : ∃ pm2, a.destroy P pm = some pm2 := by
      cases a with
      | digital b => exact ⟨_, rfl⟩
      | pwm b =>
        exact BusPwm.deallocatePins_some P pm b (by simpa [Bus.pinsInBounds] using ha)
      | network b => exact ⟨_, rfl⟩
    obtain ⟨pm2, e⟩ := hd
    obtain ⟨pm1, e1⟩ := ih pm2 (fun x hx => h x (List.mem_cons_of_mem _ hx))
    exact ⟨pm1, by simp [BusManager.deleteLoop, e, e1]⟩

/-- C10: when `BusManager::removeAll` returns, the deletion loop ran from a state
`s1` in which `canAllShow()` is true, that is, every registered bus reports
`canShow() == true` (trivially so for the empty registry): `s1` is the state
after the first `j` yields, `canAllShow()` was false before each of them, and
nothing runs between the last test and the deletion loop; the registry is
empty afterwards. Conversely, if `canAllShow()` holds after at most `fuel`
yields and no destructor reads past its pin array, `removeAll` returns. -/
theorem removeAll_waits_then_empties (P : Platform) (yield : Nat → State → State)
    (fuel : Nat) (s : State) :
    (∀ s2, BusManager.removeAll P yield fuel s = some s2 →
      ∃ s1 j, j ≤ fuel ∧ s1 = afterYields yield 0 j s ∧
        BusManager.waitLoop yield fuel 0 s = some s1 ∧
        (∀ i, i < j → (afterYields yield 0 i s).busManager.canAllShow = false) ∧
        s1.busManager.canAllShow = true ∧
        (∀ b ∈ s1.busManager.busses, b.canShow = true) ∧
        BusManager.deleteLoop P s1.pinManager s1.busManager.busses = some s2.pinManager ∧
        s2.busManager.getNumBusses = 0 ∧
        (∀ i, s2.busManager.getBus i = none)) ∧
    (∀ bm : BusManager, bm.canAllShow = true ↔ ∀ b ∈ bm.busses, b.canShow = true) ∧
    BusManager.canAllShow { busses := [] } = true ∧
    (∀ j, j ≤ fuel → (afterYields yield 0 j s).busManager.canAllShow = true →
      (∀ i, i ≤ j → ∀ b ∈ (afterYields yield 0 i s).busManager.busses, b.pinsInBounds = true) →
      ∃ s2, BusManager.removeAll P yield fuel s = some s2) := by
  refine ⟨?_, fun bm => canAllShowLoop_iff bm.busses, rfl, ?_⟩
  · intro s2 h
    unfold BusManager.removeAll at h
    cases hw : BusManager.waitLoop yield fuel 0 s with
    | none => simp [hw] at h
    | some s1 =>
      obtain ⟨hc, j, hj, e, hall⟩ := waitLoop_some yield fuel 0 s s1 hw
      cases hd : BusManager.deleteLoop P s1.pinManager s1.busManager.busses with
      | none => simp [hw, hd] at h
      | some pm =>
        simp only [hw, hd, Option.some.injEq] at h
        subst h
        exact ⟨s1, j, hj, e, rfl, hall, hc, (canAllShowLoop_iff _).1 hc, hd, rfl,
          fun i => by simp [BusManager.getBus, BusManager.getNumBusses]⟩
  · intro j hj hc hb
    obtain ⟨s1, hw⟩ := waitLoop_progress yield fuel 0 j s hj hc
    obtain ⟨_, j1, _, e, hall⟩ := waitLoop_some yield fuel 0 s s1 hw
    have hj1 : j1 ≤ j := by
      by_contra hlt
      have := hall j (by omega)
      rw [hc] at this
      exact Bool.noConfusion this
    obtain ⟨pm1, hd⟩ := deleteLoop_some P s1.busManager.busses s1.pinManager
      (by rw [e]; exact hb j1 hj1)
    exact ⟨{ pinManager := pm1, busManager := { busses := [] } },
      by simp [BusManager.removeAll, hw, hd]⟩

/-- Witness for C10: one bus whose driver is busy until the second `yield()`;
with fuel 5 `removeAll` returns the empty registry and has released pin 2. -/
theorem removeAll_waits_then_empties_witness :
    busyExample.busManager.canAllShow = false ∧
    (afterYields finishAtSecondYield 0 1 busyExample).busManager.canAllShow = false ∧
    (afterYields finishAtSecondYield 0 2 busyExample).busManager.canAllShow = true ∧
    busyExample.pinManager.claims = [(2, PinOwner.BusDigital)] ∧
    BusManager.removeAll esp32Busy finishAtSecondYield 5 busyExample = some State.init ∧
    ∃ s2, BusManager.removeAll esp32Busy finishAtSecondYield 5 busyExample = some s2 :=
  ⟨by decide, by decide, by decide, by decide, by decide,
    (removeAll_waits_then_empties esp32Busy finishAtSecondYield 5 busyExample).2.2.2 2
      (by decide) (by decide) (by decide)⟩

/-! ## BusManager::memUsage -/

theorem memUsageTraced_digital (P : Platform) (bc : BusConfig)
    (h : 15 < bc.type ∧ bc.type < 32) :
    BusManager.memUsageTraced P bc =
      if P.esp8266 = true then
        if (bc.pins.getD 0 255 == 3) = true then
          if bc.type > 29 then (MemReturn.dmaRgbw, (bc.count * 20) % 4294967296)
          else (MemReturn.dmaRgb, (bc.count * 15) % 4294967296)
        else if bc.type > 29 then (MemReturn.bitBangRgbw, (bc.count * 4) % 4294967296)
        else (MemReturn.bitBangRgb, (bc.count * 3) % 4294967296)
      else if bc.type > 29 then (MemReturn.rmtRgbw, (bc.count * 8) % 4294967296)
      else (MemReturn.rmtRgb, (bc.count * 6) % 4294967296) := by
  have hc : (decide (bc.type > 15) && decide (bc.type < 32)) = true := by
    simp only [Bool.and_eq_true, decide_eq_true_eq]; omega
  unfold BusManager.memUsageTraced
  simp only [hc, if_true]

theorem memUsageTraced_other (P : Platform) (bc : BusConfig)
    (h : ¬ (15 < bc.type ∧ bc.type < 32)) :
    BusManager.memUsageTraced P bc =
      if 31 < bc.type ∧ bc.type < 48 then (MemReturn.analog, 5)
      else (MemReturn.final, (bc.count * 3) % 4294967296) := by
  have hc : (decide (bc.type > 15) && decide (bc.type < 32)) = false := by
    simp only [Bool.and_eq_false_imp, decide_eq_true_eq, decide_eq_false_iff_not]; omega
  unfold BusManager.memUsageTraced
  simp only [hc, Bool.false_eq_true, if_false]
  by_cases ha : 31 < bc.type ∧ bc.type < 48
  · have hd : (decide (bc.type > 31) && decide (bc.type < 48)) = true := by
      simp only [Bool.and_eq_true, decide_eq_true_eq]; omega
    rw [if_pos hd, if_pos ha]
  · have hd : (decide (bc.type > 31) && decide (bc.type < 48)) = false := by
      simp only [Bool.and_eq_false_imp, decide_eq_true_eq, decide_eq_false_iff_not]; omega
    have he : (bc.type == 44 || bc.type == 45) = false := by
      simp only [Bool.or_eq_false_iff, beq_eq_false_iff_ne, ne_eq]; omega
    rw [if_neg (by simp [hd]), if_neg (by simp [he]), if_neg ha]

theorem memUsage_no_wrap (len : Nat) (h : len < 65536) :
    len * 20 % 4294967296 = len * 20 ∧ len * 15 % 4294967296 = len * 15 ∧
    len * 8 % 4294967296 = len * 8 ∧ len * 6 % 4294967296 = len * 6 ∧
    len * 4 % 4294967296 = len * 4 ∧ len * 3 % 4294967296 = len * 3 :=
  ⟨Nat.mod_eq_of_lt (by omega), Nat.mod_eq_of_lt (by omega), Nat.mod_eq_of_lt (by omega),
    Nat.mod_eq_of_lt (by omega), Nat.mod_eq_of_lt (by omega), Nat.mod_eq_of_lt (by omega)⟩

/-- C18: for every pixel count `len >= 1` (a `uint16_t`) and every first pin, on
each platform branch, `memUsage` of an addressable RGB descriptor (type 16..29)
is strictly less than `memUsage` of an RGBW descriptor (type 30 or 31) with the
same count and pins; and for a fixed type and pins the estimate is
non-decreasing in the count. -/
theorem memUsage_rgb_lt_rgbw (P : Platform) (rgb rgbw : BusConfig)
    (h1 : 16 ≤ rgb.type ∧ rgb.type ≤ 29) (h2 : rgbw.type = 30 ∨ rgbw.type = 31)
    (hc : rgbw.count = rgb.count) (hp : rgbw.pins = rgb.pins)
    (hl : 1 ≤ rgb.count) (hu : rgb.count < 65536) :
    BusManager.memUsage P rgb < BusManager.memUsage P rgbw ∧
    (∀ (bc : BusConfig) (len len2 : Nat), len ≤ len2 → len2 < 65536 →
      BusManager.memUsage P { bc with count := len }
        ≤ BusManager.memUsage P { bc with count := len2 }) := by
  refine ⟨?_, ?_⟩
  · unfold BusManager.memUsage
    rw [memUsageTraced_digital P rgb (by omega), memUsageTraced_digital P rgbw (by omega),
      hc, hp]
    have hr : ¬ (rgb.type > 29) := by omega
    have hw : rgbw.type > 29 := by omega
    obtain ⟨m20, m15, m8, m6, m4, m3⟩ := memUsage_no_wrap rgb.count hu
    simp only [hr, hw, if_true, if_false, m20, m15, m8, m6, m4, m3]
    split_ifs <;> simp only [] <;> omega
  · intro bc len len2 hle hlt
    obtain ⟨m20, m15, m8, m6, m4, m3⟩ := memUsage_no_wrap len (by omega)
    obtain ⟨n20, n15, n8, n6, n4, n3⟩ := memUsage_no_wrap len2 hlt
    unfold BusManager.memUsage
    by_cases hd : 15 < bc.type ∧ bc.type < 32
    · rw [memUsageTraced_digital P { bc with count := len } hd,
        memUsageTraced_digital P { bc with count := len2 } hd]
      simp only [m20, m15, m8, m6, m4, m3, n20, n15, n8, n6, n4, n3]
      split_ifs <;> simp only [] <;> omega
    · rw [memUsageTraced_other P { bc with count := len } hd,
        memUsageTraced_other P { bc with count := len2 } hd]
      simp only [m3, n3]
      split_ifs <;> simp only [] <;> omega

/-- Witness for C18: 100 pixels, types 22 (RGB) and 30 (RGBW), data pin 3 on the
ESP8266 build (the DMA branch): 1500 against 2000. -/
theorem memUsage_rgb_lt_rgbw_witness :
    ((16 ≤ (BusConfig.simple TYPE_WS2812_RGB 0 100 [3]).type ∧
        (BusConfig.simple TYPE_WS2812_RGB 0 100 [3]).type ≤ 29) ∧
      ((BusConfig.simple TYPE_SK6812_RGBW 0 100 [3]).type = 30 ∨
        (BusConfig.simple TYPE_SK6812_RGBW 0 100 [3]).type = 31)) ∧
    BusManager.memUsage esp8266 (BusConfig.simple TYPE_WS2812_RGB 0 100 [3]) = 1500 ∧
    BusManager.memUsage esp8266 (BusConfig.simple TYPE_SK6812_RGBW 0 100 [3]) = 2000 ∧
    BusManager.memUsage esp8266 (BusConfig.simple TYPE_WS2812_RGB 0 100 [2]) = 300 ∧
    BusManager.memUsage esp8266 (BusConfig.simple TYPE_SK6812_RGBW 0 100 [2]) = 400 ∧
    BusManager.memUsage esp32 (BusConfig.simple TYPE_WS2812_RGB 0 100 [2]) = 600 ∧
    BusManager.memUsage esp32 (BusConfig.simple TYPE_SK6812_RGBW 0 100 [2]) = 800 ∧
    BusManager.memUsage esp8266 (BusConfig.simple TYPE_WS2812_RGB 0 100 [3])
      < BusManager.memUsage esp8266 (BusConfig.simple TYPE_SK6812_RGBW 0 100 [3]) :=
  ⟨⟨by decide, by decide⟩, by decide, by decide, by decide, by decide, by decide, by decide,
    (memUsage_rgb_lt_rgbw esp8266 (BusConfig.simple TYPE_WS2812_RGB 0 100 [3])
      (BusConfig.simple TYPE_SK6812_RGBW 0 100 [3]) (by decide) (by decide) (by decide)
      (by decide) (by decide) (by decide)).1⟩

/-- C20: for every descriptor whose type lies in 32..47 (which includes the
analog PWM types 41..45) and every pixel count, `memUsage` returns 5, through
the statement `return 5;`; the later statement for types 44 and 45
(`return len*4;`) is never executed, and the final `return len*3;` is executed
exactly for the types below 16 or above 47. -/
theorem memUsage_analog_constant (P : Platform) (bc : BusConfig) :
    ((31 < bc.type ∧ bc.type < 48) →
      BusManager.memUsage P bc = 5 ∧
      (BusManager.memUsageTraced P bc).1 = MemReturn.analog) ∧
    (BusManager.memUsageTraced P bc).1 ≠ MemReturn.analogRgbw ∧
    ((BusManager.memUsageTraced P bc).1 = MemReturn.final ↔ (bc.type < 16 ∨ bc.type > 47)) ∧
    ((bc.type < 16 ∨ bc.type > 47) →
      BusManager.memUsage P bc = (bc.count * 3) % 4294967296) := by
  unfold BusManager.memUsage
  by_cases hd : 15 < bc.type ∧ bc.type < 32
  · rw [memUsageTraced_digital P bc hd]
    refine ⟨fun h => by omega, ?_, ⟨?_, fun h => by omega⟩, fun h => by omega⟩
    · split_ifs <;> simp
    · split_ifs <;> simp
  · rw [memUsageTraced_other P bc hd]
    by_cases ha : 31 < bc.type ∧ bc.type < 48
    · rw [if_pos ha]
      refine ⟨fun _ => ⟨rfl, rfl⟩, by simp, ⟨by simp, fun h => by omega⟩, fun h => by omega⟩
    · rw [if_neg ha]
      refine ⟨fun h => absurd h ha, by simp, ⟨fun _ => by omega, fun _ => rfl⟩, fun _ => rfl⟩

/-- Witness for C20: the 4- and 5-channel PWM types with 100 and 1000 pixels on
both builds. -/
theorem memUsage_analog_constant_witness :
    BusManager.memUsage esp32 (BusConfig.simple TYPE_ANALOG_4CH 0 100 [2, 4, 5, 12]) = 5 ∧
    BusManager.memUsage esp8266 (BusConfig.simple TYPE_ANALOG_5CH 0 1000 [2, 4, 5, 12, 13]) = 5 ∧
    BusManager.memUsage esp32 (BusConfig.simple TYPE_ANALOG_4CH 0 100 [2, 4, 5, 12]) = 5 ∧
      (BusManager.memUsageTraced esp32 (BusConfig.simple TYPE_ANALOG_4CH 0 100 [2, 4, 5, 12])).1
        = MemReturn.analog :=
  ⟨by decide, by decide,
    (memUsage_analog_constant esp32 (BusConfig.simple TYPE_ANALOG_4CH 0 100 [2, 4, 5, 12])).1
      (by decide)⟩

/-! ## The BusConfig constructor -/

theorem nPins_cases (t : Nat) :
    ((80 ≤ t ∧ t < 96) → BusConfig.nPins t = 4) ∧
    ((47 < t ∧ ¬ (80 ≤ t ∧ t < 96)) → BusConfig.nPins t = 2) ∧
    ((40 < t ∧ t < 46) → BusConfig.nPins t = t - 40) ∧
    ((t ≤ 40 ∨ t = 46 ∨ t = 47) → BusConfig.nPins t = 1) ∧
    1 ≤ BusConfig.nPins t ∧ BusConfig.nPins t ≤ 5 := by
  unfold BusConfig.nPins NUM_PWM_PINS TYPE_NET_DDP_RGB
  by_cases h1 : 80 ≤ t ∧ t < 96
  · have c1 : (decide (t ≥ 80) && decide (t < 96)) = true := by simp; omega
    rw [if_pos c1]
    refine ⟨fun _ => rfl, fun h => absurd h1 h.2, fun h => by omega, fun h => by omega, ?_, ?_⟩
      <;> omega
  · have c1 : ¬ ((decide (t ≥ 80) && decide (t < 96)) = true) := by simp; omega
    rw [if_neg c1]
    by_cases h2 : t > 47
    · rw [if_pos h2]
      refine ⟨fun h => absurd h h1, fun _ => rfl, fun h => by omega, fun h => by omega, ?_, ?_⟩
        <;> omega
    · rw [if_neg h2]
      by_cases h3 : 40 < t ∧ t < 46
      · have c3 : (decide (t > 40) && decide (t < 46)) = true := by simp; omega
        rw [if_pos c3]
        refine ⟨fun h => absurd h h1, fun h => by omega, fun _ => by omega, fun h => by omega,
          ?_, ?_⟩ <;> omega
      · have c3 : ¬ ((decide (t > 40) && decide (t < 46)) = true) := by simp; omega
        rw [if_neg c3]
        refine ⟨fun h => absurd h h1, fun h => by omega, fun h => absurd h h3, fun _ => rfl,
          ?_, ?_⟩ <;> omega

theorem copyPins_closed (ppins : List Nat) (L n : Nat) (h1 : 1 ≤ n) (h5 : n ≤ 5)
    (hl : n ≤ ppins.length) :
    BusConfig.copyPins ppins 0 n [L, 255, 255, 255, 255]
      = some (ppins.take n ++ List.replicate (5 - n) 255) := by
  rcases ppins with _ | ⟨a, _ | ⟨b, _ | ⟨c, _ | ⟨d, _ | ⟨e, rest⟩⟩⟩⟩⟩ <;>
    simp only [List.length_nil, List.length_cons] at hl <;>
    interval_cases n <;> first | omega | simp [BusConfig.copyPins, List.replicate]

/-- C17 as stated fails: for the raw type 40 (TYPE_ONOFF) the rule of the claim
ends in "otherwise the PWM channel count of the type", which is 0, while the
constructor's `nPins` is 1 and one pin value is copied. -/
theorem busConfig_nPins_default_is_one :
    nPinsSpec 40 = 0 ∧ BusConfig.nPins (40 &&& 0x7F) = 1 ∧
    BusConfig.nPins (40 &&& 0x7F) ≠ nPinsSpec (40 &&& 0x7F) ∧
    (BusConfig.new 2 40 [7, 8, 9] 0 1 COL_ORDER_GRB false 0).map (fun bc => bc.pins)
      = some [7, 255, 255, 255, 255] := by
  decide

/-- C17, amended: the constructor stores `type = raw & 0x7F` and
`refreshReq` = bit 7 of `raw`, and copies exactly `nPins` pin values from the
supplied list (which must hold that many), the slots from `nPins` on keeping
255; `nPins` depends on the stored type alone: 4 for a network type (80..95),
2 for every other type above 47 (the dual-wire addressable types), the channel
count `type - 40` for the PWM types 41..45 (2 for the 2-channel type), and 1
for every other type, which covers the single-wire addressable types and also
the types that are none of these (0..15, 32..40, 46, 47). On the addressable,
PWM and network types this is the rule of the specification. -/
theorem busConfig_constructor (LEDPIN busType : Nat) (ppins : List Nat)
    (pstart len pcolorOrder : Nat) (rev : Bool) (skip : Nat)
    (hl : BusConfig.nPins (busType &&& 0x7F) ≤ ppins.length) :
    (∃ bc, BusConfig.new LEDPIN busType ppins pstart len pcolorOrder rev skip = some bc ∧
      bc.type = busType &&& 0x7F ∧ bc.type = busType % 128 ∧
      bc.refreshReq = busType.testBit 7 ∧
      bc.pins = ppins.take (BusConfig.nPins bc.type)
        ++ List.replicate (5 - BusConfig.nPins bc.type) 255 ∧
      bc.count = len ∧ bc.start = pstart ∧ bc.colorOrder = pcolorOrder ∧
      bc.reversed = rev ∧ bc.skipAmount = skip) ∧
    (∀ t, ((80 ≤ t ∧ t < 96) → BusConfig.nPins t = 4) ∧
      ((47 < t ∧ ¬ (80 ≤ t ∧ t < 96)) → BusConfig.nPins t = 2) ∧
      ((40 < t ∧ t < 46) → BusConfig.nPins t = t - 40) ∧
      ((t ≤ 40 ∨ t = 46 ∨ t = 47) → BusConfig.nPins t = 1) ∧
      1 ≤ BusConfig.nPins t ∧ BusConfig.nPins t ≤ 5) ∧
    (∀ t, t < 128 →
      ((16 ≤ t ∧ t ≤ 31) ∨ (41 ≤ t ∧ t ≤ 45) ∨ (48 ≤ t ∧ t ≤ 63) ∨ (80 ≤ t ∧ t ≤ 95)) →
      BusConfig.nPins t = nPinsSpec t) := by
  refine ⟨?_, nPins_cases, by decide⟩
  obtain ⟨_, _, _, _, n1, n5⟩ := nPins_cases (busType &&& 0x7F)
  unfold BusConfig.new
  simp only [copyPins_closed ppins LEDPIN _ n1 n5 hl, Option.map_some']
  refine ⟨_, rfl, rfl, Nat.and_pow_two_sub_one_eq_mod busType 7, ?_, rfl, rfl, rfl, rfl, rfl, rfl⟩
  simp only [GET_BIT, Nat.testBit, Nat.and_comm]

/-- Witness for C17 (amended): raw type 0x80 | 43 (3-channel PWM with the
refresh bit) and five supplied pins. -/
theorem busConfig_constructor_witness :
    BusConfig.nPins (171 &&& 0x7F) ≤ [2, 4, 5, 12, 13].length ∧
    BusConfig.new 16 171 [2, 4, 5, 12, 13] 0 1 COL_ORDER_GRB false 0
      = some { type := 43, count := 1, start := 0, colorOrder := COL_ORDER_GRB, reversed := false
               skipAmount := 0, refreshReq := true, pins := [2, 4, 5, 255, 255] } ∧
    ∃ bc, BusConfig.new 16 171 [2, 4, 5, 12, 13] 0 1 COL_ORDER_GRB false 0 = some bc ∧
      bc.type = 171 &&& 0x7F :=
  ⟨by decide, by decide,
    (busConfig_constructor 16 171 [2, 4, 5, 12, 13] 0 1 COL_ORDER_GRB false 0 (by decide)).1.elim
      (fun bc h => ⟨bc, h.1, h.2.1⟩)⟩

/-! ## BusPwm: channel values and rendering -/

theorem shl_or (a b i : Nat) (hb : b < 2 ^ i) : a <<< i ||| b = a * 2 ^ i + b := by
  rw [Nat.shiftLeft_eq, Nat.mul_comm a, ← Nat.mul_add_lt_is_or hb]

theorem pack3 (r g b : Nat) (hg : g < 256) (hb : b < 256) :
    (r <<< 16 ||| g <<< 8 ||| b) = r * 65536 + g * 256 + b := by
  rw [Nat.or_assoc, shl_or g b 8 (by simpa using hb), shl_or r _ 16 (by norm_num; omega)]
  norm_num
  omega

theorem pack4 (w r g b : Nat) (hr : r < 256) (hg : g < 256) (hb : b < 256) :
    (w <<< 24 ||| r <<< 16 ||| g <<< 8 ||| b) = w * 16777216 + r * 65536 + g * 256 + b := by
  rw [Nat.or_assoc, Nat.or_assoc, ← Nat.or_assoc (r <<< 16), pack3 r g b hg hb,
    shl_or w _ 24 (by norm_num; omega)]
  norm_num
  omega

theorem mask8 (x : Nat) : 0xFF &&& x = x % 256 := by
  rw [Nat.and_comm]
  exact Nat.and_pow_two_sub_one_eq_mod x 8

theorem scaled_le (m bri : Nat) (hm : m ≤ 255) (hb : bri ≤ 255) : m * bri / 255 ≤ 255 := by
  have h : m * bri ≤ 255 * 255 := Nat.mul_le_mul hm hb
  omega

theorem unpack4 (W R G B : Nat) (hW : W < 256) (hR : R < 256) (hG : G < 256) (hB : B < 256) :
    ((W <<< 24 ||| R <<< 16 ||| G <<< 8 ||| B) >>> 16) % 256 = R ∧
    ((W <<< 24 ||| R <<< 16 ||| G <<< 8 ||| B) >>> 8) % 256 = G ∧
    (W <<< 24 ||| R <<< 16 ||| G <<< 8 ||| B) % 256 = B ∧
    ((W <<< 24 ||| R <<< 16 ||| G <<< 8 ||| B) >>> 24) % 256 = W ∧
    (W <<< 24 ||| R <<< 16 ||| G <<< 8 ||| B) < 4294967296 := by
  rw [pack4 W R G B hR hG hB, Nat.shiftRight_eq_div_pow, Nat.shiftRight_eq_div_pow,
    Nat.shiftRight_eq_div_pow]
  norm_num
  omega

theorem pwm_set_one_channel (b : BusPwm) (hv : b._valid = true) (ht : b._type = TYPE_ANALOG_1CH)
    (c : Nat) :
    (b.setPixelColor 0 c).toBusBase = b.toBusBase ∧ (b.setPixelColor 0 c)._pins = b._pins ∧
    (b.setPixelColor 0 c)._ledcStart = b._ledcStart ∧
    (b.setPixelColor 0 c)._data = b._data.set 0
      (max ((c >>> 16) % 256) (max ((c >>> 8) % 256) (max (c % 256) ((c >>> 24) % 256)))) := by
  unfold BusPwm.setPixelColor
  simp [hv, ht]

theorem pwm_set_other_index (b : BusPwm) (pix c : Nat) (hp : pix ≠ 0) :
    b.setPixelColor pix c = b := by
  unfold BusPwm.setPixelColor
  simp [hp]

/-- C15: for a valid 1-channel PWM bus, every colour `c = W<<24 | R<<16 | G<<8 | B`
and every brightness `bri` in 0..255: `setPixelColor(0, c)` stores
`max(R, G, B, W)` in the channel buffer, and after `setBrightness(bri)` `show`
drives the single channel (pin `_pins[0]` on the ESP8266, channel slot
`_ledcStart` on the ESP32) to `floor(max(R, G, B, W) * bri / 255)`, or to 255
minus that when the bus is reversed; the value lies in 0..255; `setPixelColor`
at an index other than 0 leaves the bus unchanged. -/
theorem pwm_one_channel_show (P : Platform) (b : BusPwm) (hv : b._valid = true)
    (ht : b._type = TYPE_ANALOG_1CH) (hd : 1 ≤ b._data.length) (hp : 1 ≤ b._pins.length)
    (W R G B bri : Nat) (hW : W < 256) (hR : R < 256) (hG : G < 256) (hB : B < 256)
    (hb : bri < 256) :
    (b.setPixelColor 0 (W <<< 24 ||| R <<< 16 ||| G <<< 8 ||| B))._data
      = b._data.set 0 (max R (max G (max B W))) ∧
    BusPwm.show P ((b.setPixelColor 0 (W <<< 24 ||| R <<< 16 ||| G <<< 8 ||| B)).setBrightness bri)
      = some [if P.esp8266 = true then
          Output.analogWrite (b._pins.getD 0 255)
            (if b.reversed = true then 255 - max R (max G (max B W)) * bri / 255
              else max R (max G (max B W)) * bri / 255)
        else
          Output.ledcWrite (b._ledcStart % 256)
            (if b.reversed = true then 255 - max R (max G (max B W)) * bri / 255
              else max R (max G (max B W)) * bri / 255)] ∧
    max R (max G (max B W)) * bri / 255 ≤ 255 ∧
    (∀ pix c, pix ≠ 0 → b.setPixelColor pix c = b) := by
  obtain ⟨uR, uG, uB, uW, _⟩ := unpack4 W R G B hW hR hG hB
  have hm : max R (max G (max B W)) ≤ 255 := by
    simp only [Nat.max_def]; split_ifs <;> omega
  have hs := scaled_le _ bri hm (by omega)
  obtain ⟨sb, sp, sl, sd⟩ := pwm_set_one_channel b hv ht (W <<< 24 ||| R <<< 16 ||| G <<< 8 ||| B)
  rw [uR, uG, uB, uW] at sd
  refine ⟨sd, ?_, hs, fun pix c h => pwm_set_other_index b pix c h⟩
  have sv := congrArg BusBase._valid sb
  have st := congrArg BusBase._type sb
  have sr := congrArg BusBase.reversed sb
  simp only at sv st sr
  have h0 : 0 < b._data.length := by omega
  have hp0 : 0 < b._pins.length := by omega
  have hn : NUM_PWM_PINS TYPE_ANALOG_1CH = 1 := by decide
  have hmod : max R (max G (max B W)) * bri / 255 % 256
      = max R (max G (max B W)) * bri / 255 := Nat.mod_eq_of_lt (by omega)
  have hmod2 : (255 - max R (max G (max B W)) * bri / 255) % 256
      = 255 - max R (max G (max B W)) * bri / 255 := Nat.mod_eq_of_lt (by omega)
  have hg : b._pins.getD 0 255 = b._pins[0] := by
    rw [List.getD_eq_getElem?_getD, List.getElem?_eq_getElem hp0]; rfl
  by_cases he : P.esp8266 = true <;> by_cases hr : b.reversed = true <;>
    simp [BusPwm.show, BusPwm.setBrightness, sv, st, sr, sd, sp, sl, hv, ht, hn,
      BusPwm.showLoop, List.getElem?_set_self h0, hmod, hmod2, hg,
      List.getElem?_eq_getElem hp0, he, hr]

/-- Witness for C15: colour 0x10203040 and brightness 128 on the ESP32 build; the
unscaled value is 0x40 and channel slot 0 is driven to 32. -/
theorem pwm_one_channel_show_witness :
    (oneChannelExample._valid = true ∧ oneChannelExample._type = TYPE_ANALOG_1CH ∧
      1 ≤ oneChannelExample._data.length ∧ 1 ≤ oneChannelExample._pins.length) ∧
    (0x10 <<< 24 ||| 0x20 <<< 16 ||| 0x30 <<< 8 ||| 0x40 = 0x10203040) ∧
    (oneChannelExample.setPixelColor 0 0x10203040)._data = [0x40, 255, 255, 255, 255] ∧
    BusPwm.show esp32 ((oneChannelExample.setPixelColor 0 0x10203040).setBrightness 128)
      = some [Output.ledcWrite 0 32] ∧
    (oneChannelExample.setPixelColor 0 (0x10 <<< 24 ||| 0x20 <<< 16 ||| 0x30 <<< 8 ||| 0x40))._data
      = oneChannelExample._data.set 0 (max 0x20 (max 0x30 (max 0x40 0x10))) :=
  ⟨⟨by decide, by decide, by decide, by decide⟩, by decide, by decide, by decide,
    (pwm_one_channel_show esp32 oneChannelExample (by decide) (by decide) (by decide)
      (by decide) 0x10 0x20 0x30 0x40 128 (by decide) (by decide) (by decide) (by decide)
      (by decide)).1⟩

/-! ## Invalid busses -/

theorem BusDigital.new_invalid (P : Platform) (pm : PinManager) (bc : BusConfig) (nr : Nat)
    (hv : (BusDigital.new P pm bc nr).2._valid = false) :
    (BusDigital.new P pm bc nr).2._busPtr = none := by
  revert hv
  unfold BusDigital.new
  simp only []
  split_ifs <;> simp_all [BusDigital.cleanup]

theorem busDigital_without_driver (b : BusDigital) (h : b._busPtr = none) (pix c : Nat) :
    b.setPixelColor pix c = b ∧ b.getPixelColor pix = 0 ∧ b.show = [] := by
  refine ⟨?_, ?_, ?_⟩
  · have e : PolyBus.setPixelColor b._busPtr b._iType (b.physical pix) c b._colorOrder
        = b._busPtr := by
      rw [h]; unfold PolyBus.setPixelColor; split_ifs <;> rfl
    unfold BusDigital.setPixelColor
    rw [e]
  · unfold BusDigital.getPixelColor PolyBus.getPixelColor
    rw [h]; split_ifs <;> rfl
  · unfold BusDigital.show PolyBus.show
    rw [h]; split_ifs <;> rfl

/-- C14: on a bus whose construction failed (`isOk()` false), for every index and
colour, `setPixelColor` leaves the bus unchanged, `getPixelColor` returns 0 and
`show` drives no output and issues no transmit. The PWM and network variants
return at their `_valid` guard before `_data` is indexed (no byte of the
network buffer is touched); the addressable variant holds a null driver handle
and hands every call to the driver, which is taken to ignore calls made with
`I_NONE` or a null handle. -/
theorem invalid_bus_is_inert (P : Platform) :
    (∀ b : BusPwm, b._valid = false → ∀ pix c,
      b.setPixelColor pix c = b ∧ b.getPixelColor pix = 0 ∧ b.show P = some []) ∧
    (∀ b : BusNetwork, b._valid = false → ∀ pix c,
      b.setPixelColor pix c = b ∧ b.getPixelColor pix = 0 ∧ b.show = (b, []) ∧
      b.touched pix = []) ∧
    (∀ (pm : PinManager) (bc : BusConfig) (nr : Nat),
      (BusDigital.new P pm bc nr).2._valid = false →
      (BusDigital.new P pm bc nr).2._busPtr = none ∧
      ∀ pix c,
        (BusDigital.new P pm bc nr).2.setPixelColor pix c = (BusDigital.new P pm bc nr).2 ∧
        (BusDigital.new P pm bc nr).2.getPixelColor pix = 0 ∧
        (BusDigital.new P pm bc nr).2.show = []) := by
  refine ⟨?_, ?_, ?_⟩
  · intro b hv pix c
    refine ⟨?_, ?_, ?_⟩
    · unfold BusPwm.setPixelColor; simp [hv]
    · unfold BusPwm.getPixelColor; simp [hv]
    · unfold BusPwm.show; simp [hv]
  · intro b hv pix c
    refine ⟨?_, ?_, ?_, ?_⟩
    · unfold BusNetwork.setPixelColor; simp [hv]
    · unfold BusNetwork.getPixelColor; simp [hv]
    · unfold BusNetwork.show; simp [hv]
    · unfold BusNetwork.touched; simp [hv]
  · intro pm bc nr hv
    have h := BusDigital.new_invalid P pm bc nr hv
    exact ⟨h, fun pix c => busDigital_without_driver _ h pix c⟩

/-- Witness for C14: a failed construction of each variant: an addressable bus
whose driver instantiation fails, one whose data pin is already claimed, a
network bus whose buffer allocation fails, and a PWM bus whose pin is taken. -/
theorem invalid_bus_is_inert_witness :
    (BusDigital.new esp32NoMemory State.init.pinManager conflictConfig 0).2._valid = false ∧
    (BusDigital.new esp32NoMemory State.init.pinManager conflictConfig 0).2._iType ≠ I_NONE ∧
    ((BusDigital.new esp32NoMemory State.init.pinManager conflictConfig 0).2.setPixelColor 3 0xFF).getPixelColor 3
      = 0 ∧
    (BusDigital.new esp32 singleBusExample.pinManager conflictConfig 1).2._valid = false ∧
    (BusNetwork.new esp32NoMemory (BusConfig.simple TYPE_NET_DDP_RGB 0 10 [10, 0, 0, 1]))._valid
      = false ∧
    ((BusPwm.new esp32 singleBusExample.pinManager
      (BusConfig.simple TYPE_ANALOG_1CH 0 1 [2])).map (fun r => r.2._valid)) = some false ∧
    (BusDigital.new esp32NoMemory State.init.pinManager conflictConfig 0).2._busPtr = none :=
  ⟨by decide, by decide, by decide, by decide, by decide, by decide,
    ((invalid_bus_is_inert esp32NoMemory).2.2 State.init.pinManager conflictConfig 0
      (by decide)).1⟩

/-! ## BusNetwork: pixel buffer -/

theorem network_wellFormed_iff (b : BusNetwork) :
    b.wellFormed = true ↔
      b._valid = true ∧ b._UDPchannels = (if b._rgbw = true then 4 else 3) ∧
      ∃ d, b._data = some d ∧ d.length = b._len * b._UDPchannels := by
  unfold BusNetwork.wellFormed
  cases hd : b._data with
  | none => simp
  | some d => simp [and_assoc]

theorem network_new_wellFormed (P : Platform) (bc : BusConfig)
    (hv : (BusNetwork.new P bc)._valid = true) :
    (BusNetwork.new P bc).wellFormed = true ∧ (BusNetwork.new P bc)._rgbw = false ∧
    (BusNetwork.new P bc)._len = bc.count ∧ (BusNetwork.new P bc)._UDPchannels = 3 ∧
    (BusNetwork.new P bc)._data = some (List.replicate (bc.count * 3) 0) := by
  revert hv
  unfold BusNetwork.new
  simp only []
  by_cases hm : P.malloc (bc.count * 3) = true
  · simp [hm, BusNetwork.wellFormed]
  · simp [hm]

theorem network_in_bounds (b : BusNetwork) (hw : b.wellFormed = true) (pix : Nat)
    (hp : pix < b._len) :
    ∀ d, b._data = some d → b.offset pix + (b._UDPchannels - 1) < d.length := by
  obtain ⟨_, hch, d, hd, hl⟩ := (network_wellFormed_iff b).1 hw
  intro d2 hd2
  rw [hd] at hd2
  cases hd2
  unfold BusNetwork.offset
  by_cases hr : b._rgbw = true
  · rw [if_pos hr] at hch
    rw [hl, hch]; omega
  · rw [if_neg hr] at hch
    rw [hl, hch]; omega

theorem getD_set_three (d : List Nat) (o x y z : Nat) (h : o + 2 < d.length) :
    (((d.set o x).set (o + 1) y).set (o + 2) z).getD o 0 = x ∧
    (((d.set o x).set (o + 1) y).set (o + 2) z).getD (o + 1) 0 = y ∧
    (((d.set o x).set (o + 1) y).set (o + 2) z).getD (o + 2) 0 = z ∧
    (∀ k, k ≠ o → k ≠ o + 1 → k ≠ o + 2 →
      (((d.set o x).set (o + 1) y).set (o + 2) z).getD k 0 = d.getD k 0) ∧
    (((d.set o x).set (o + 1) y).set (o + 2) z).length = d.length := by
  have b0 : o < d.length := by omega
  have b1 : o + 1 < d.length := by omega
  refine ⟨?_, ?_, ?_, ?_, by simp⟩
  · simp [List.getD_eq_getElem?_getD, List.getElem?_set, b0]
  · simp [List.getD_eq_getElem?_getD, List.getElem?_set, b1]
  · simp [List.getD_eq_getElem?_getD, List.getElem?_set, h]
  · intro k h0 h1 h2
    simp [List.getD_eq_getElem?_getD, List.getElem?_set, Ne.symm h0, Ne.symm h1, Ne.symm h2]

theorem getD_set_four (d : List Nat) (o x y z w : Nat) (h : o + 3 < d.length) :
    ((((d.set o x).set (o + 1) y).set (o + 2) z).set (o + 3) w).getD o 0 = x ∧
    ((((d.set o x).set (o + 1) y).set (o + 2) z).set (o + 3) w).getD (o + 1) 0 = y ∧
    ((((d.set o x).set (o + 1) y).set (o + 2) z).set (o + 3) w).getD (o + 2) 0 = z ∧
    ((((d.set o x).set (o + 1) y).set (o + 2) z).set (o + 3) w).getD (o + 3) 0 = w ∧
    (∀ k, k ≠ o → k ≠ o + 1 → k ≠ o + 2 → k ≠ o + 3 →
      ((((d.set o x).set (o + 1) y).set (o + 2) z).set (o + 3) w).getD k 0 = d.getD k 0) ∧
    ((((d.set o x).set (o + 1) y).set (o + 2) z).set (o + 3) w).length = d.length := by
  have b0 : o < d.length := by omega
  have b1 : o + 1 < d.length := by omega
  have b2 : o + 2 < d.length := by omega
  refine ⟨?_, ?_, ?_, ?_, ?_, by simp⟩
  · simp [List.getD_eq_getElem?_getD, List.getElem?_set, b0]
  · simp [List.getD_eq_getElem?_getD, List.getElem?_set, b1]
  · simp [List.getD_eq_getElem?_getD, List.getElem?_set, b2]
  · simp [List.getD_eq_getElem?_getD, List.getElem?_set, h]
  · intro k h0 h1 h2 h3
    simp [List.getD_eq_getElem?_getD, List.getElem?_set, Ne.symm h0, Ne.symm h1, Ne.symm h2,
      Ne.symm h3]

theorem network_set_data (b : BusNetwork) (hv : b._valid = true) (d : List Nat)
    (hd : b._data = some d) (pix c : Nat) (hp : pix < b._len) :
    (b.setPixelColor pix c)._valid = true ∧ (b.setPixelColor pix c)._len = b._len ∧
    (b.setPixelColor pix c)._rgbw = b._rgbw ∧
    (b.setPixelColor pix c)._UDPchannels = b._UDPchannels ∧
    (b.setPixelColor pix c)._data
      = some (if b._rgbw = true then
          (((d.set (b.offset pix) (0xFF &&& (c >>> 16))).set (b.offset pix + 1)
            (0xFF &&& (c >>> 8))).set (b.offset pix + 2) (0xFF &&& c)).set (b.offset pix + 3)
            (0xFF &&& (c >>> 24))
        else
          ((d.set (b.offset pix) (0xFF &&& (c >>> 16))).set (b.offset pix + 1)
            (0xFF &&& (c >>> 8))).set (b.offset pix + 2) (0xFF &&& c)) := by
  have hn : ¬ (pix ≥ b._len) := by omega
  unfold BusNetwork.setPixelColor
  by_cases hr : b._rgbw = true
  · simp [hv, hn, hd, hr]
  · simp [hv, hn, hd, hr]

theorem network_get_data (b : BusNetwork) (hv : b._valid = true) (d : List Nat)
    (hd : b._data = some d) (pix : Nat) (hp : pix < b._len) (o : Nat) (ho : b.offset pix = o) :
    b.getPixelColor pix
      = ((if b._rgbw = true then d.getD (o + 3) 0 <<< 24 else 0) ||| (d.getD o 0 <<< 16)
          ||| (d.getD (o + 1) 0 <<< 8) ||| d.getD (o + 2) 0) % 4294967296 := by
  have hn : ¬ (pix ≥ b._len) := by omega
  unfold BusNetwork.getPixelColor BusNetwork.byteAt
  simp [hv, hn, hd, ho]

theorem network_offset_set (b : BusNetwork) (pix c i : Nat) :
    (b.setPixelColor pix c).offset i = b.offset i := by
  unfold BusNetwork.setPixelColor BusNetwork.offset
  split_ifs <;> rfl

theorem network_get_set_same (b : BusNetwork) (hw : b.wellFormed = true) (i c : Nat)
    (hi : i < b._len) (hc : c < 4294967296) :
    (b.setPixelColor i c).getPixelColor i = (if b._rgbw = true then c else c &&& 0x00FFFFFF) ∧
    (b.setPixelColor i c).wellFormed = true := by
  obtain ⟨hv, hch, d, hd, hl⟩ := (network_wellFormed_iff b).1 hw
  have hb := network_in_bounds b hw i hi d hd
  obtain ⟨sv, sl, sr, sc, sd⟩ := network_set_data b hv d hd i c hi
  refine ⟨?_, ?_⟩
  · rw [network_get_data _ sv _ sd i (by rw [sl]; exact hi) (b.offset i)
      (network_offset_set b i c i), sr]
    by_cases hr : b._rgbw = true
    · rw [if_pos hr] at hch
      rw [hch] at hb
      obtain ⟨g0, g1, g2, g3, _, _⟩ := getD_set_four d (b.offset i) (0xFF &&& (c >>> 16))
        (0xFF &&& (c >>> 8)) (0xFF &&& c) (0xFF &&& (c >>> 24)) (by omega)
      simp only [hr, if_true, g0, g1, g2, g3]
      rw [mask8, mask8, mask8, mask8,
        pack4 _ _ _ _ (Nat.mod_lt _ (by decide)) (Nat.mod_lt _ (by decide))
          (Nat.mod_lt _ (by decide)),
        Nat.shiftRight_eq_div_pow, Nat.shiftRight_eq_div_pow, Nat.shiftRight_eq_div_pow]
      omega
    · rw [if_neg hr] at hch
      rw [hch] at hb
      obtain ⟨g0, g1, g2, _, _⟩ := getD_set_three d (b.offset i) (0xFF &&& (c >>> 16))
        (0xFF &&& (c >>> 8)) (0xFF &&& c) (by omega)
      simp only [hr, Bool.false_eq_true, if_false, g0, g1, g2, Nat.zero_or]
      rw [mask8, mask8, mask8, Nat.and_pow_two_sub_one_eq_mod c 24,
        pack3 _ _ _ (Nat.mod_lt _ (by decide)) (Nat.mod_lt _ (by decide)),
        Nat.shiftRight_eq_div_pow, Nat.shiftRight_eq_div_pow]
      omega
  · rw [network_wellFormed_iff]
    refine ⟨sv, by rw [sc, sr]; exact hch, _, sd, ?_⟩
    rw [sl, sc, ← hl]
    split_ifs <;> simp

theorem network_offset_eq (b : BusNetwork) (hw : b.wellFormed = true)
    (hn : (b._len - 1) * b._UDPchannels < 65536) (pix : Nat) (hp : pix < b._len) :
    b.offset pix = pix * b._UDPchannels := by
  obtain ⟨_, hch, _⟩ := (network_wellFormed_iff b).1 hw
  unfold BusNetwork.offset
  apply Nat.mod_eq_of_lt
  by_cases hr : b._rgbw = true
  · rw [if_pos hr] at hch
    rw [hch] at hn ⊢; omega
  · rw [if_neg hr] at hch
    rw [hch] at hn ⊢; omega

theorem network_frame (b : BusNetwork) (hw : b.wellFormed = true)
    (hn : (b._len - 1) * b._UDPchannels < 65536) (i j c : Nat) (hi : i < b._len)
    (hj : j < b._len) (hij : i ≠ j) :
    (b.setPixelColor i c).getPixelColor j = b.getPixelColor j := by
  obtain ⟨hv, hch, d, hd, hl⟩ := (network_wellFormed_iff b).1 hw
  have hb := network_in_bounds b hw i hi d hd
  have oi := network_offset_eq b hw hn i hi
  have oj := network_offset_eq b hw hn j hj
  obtain ⟨sv, sl, sr, sc, sd⟩ := network_set_data b hv d hd i c hi
  rw [network_get_data _ sv _ sd j (by rw [sl]; exact hj) (b.offset j)
      (network_offset_set b i c j), sr, network_get_data b hv d hd j hj (b.offset j) rfl]
  by_cases hr : b._rgbw = true
  · rw [if_pos hr] at hch
    rw [hch] at hb oi oj
    obtain ⟨_, _, _, _, g, _⟩ := getD_set_four d (b.offset i) (0xFF &&& (c >>> 16))
      (0xFF &&& (c >>> 8)) (0xFF &&& c) (0xFF &&& (c >>> 24)) (by omega)
    simp only [hr, if_true]
    rw [g (b.offset j) (by omega) (by omega) (by omega) (by omega),
      g (b.offset j + 1) (by omega) (by omega) (by omega) (by omega),
      g (b.offset j + 2) (by omega) (by omega) (by omega) (by omega),
      g (b.offset j + 3) (by omega) (by omega) (by omega) (by omega)]
  · rw [if_neg hr] at hch
    rw [hch] at hb oi oj
    obtain ⟨_, _, _, g, _⟩ := getD_set_three d (b.offset i) (0xFF &&& (c >>> 16))
      (0xFF &&& (c >>> 8)) (0xFF &&& c) (by omega)
    simp only [hr, Bool.false_eq_true, if_false]
    rw [g (b.offset j) (by omega) (by omega) (by omega),
      g (b.offset j + 1) (by omega) (by omega) (by omega),
      g (b.offset j + 2) (by omega) (by omega) (by omega)]

theorem network_touched_in_bounds (b : BusNetwork) (hw : b.wellFormed = true) (pix : Nat)
    (d : List Nat) (hd : b._data = some d) (k : Nat) (hk : k ∈ b.touched pix) :
    k < d.length := by
  obtain ⟨hv, hch, _⟩ := (network_wellFormed_iff b).1 hw
  unfold BusNetwork.touched at hk
  by_cases hp : pix < b._len
  · have hb := network_in_bounds b hw pix hp d hd
    have hn : ¬ (pix ≥ b._len) := by omega
    by_cases hr : b._rgbw = true
    · rw [if_pos hr] at hch
      rw [hch] at hb
      simp [hv, hn, hr] at hk
      omega
    · rw [if_neg hr] at hch
      rw [hch] at hb
      simp [hv, hn, hr] at hk
      omega
  · have hn : pix ≥ b._len := by omega
    simp [hn] at hk

theorem network_fresh_alias (P : Platform) (bc : BusConfig)
    (hv : (BusNetwork.new P bc)._valid = true) (hc : 21847 ≤ bc.count) :
    (BusNetwork.new P bc).offset 21846 = 2 ∧
    (BusNetwork.new P bc).getPixelColor 0 = 0 ∧
    ((BusNetwork.new P bc).setPixelColor 21846 0xFF0000).getPixelColor 0 = 0x0000FF := by
  obtain ⟨hw, hr, hl, hch, hd⟩ := network_new_wellFormed P bc hv
  have ho : (BusNetwork.new P bc).offset 21846 = 2 := by
    unfold BusNetwork.offset; rw [hch]
  have ho0 : (BusNetwork.new P bc).offset 0 = 0 := by
    unfold BusNetwork.offset; rw [hch]
  have hz : ∀ k, (List.replicate (bc.count * 3) 0).getD k 0 = 0 := by
    intro k
    simp only [List.getD_eq_getElem?_getD, List.getElem?_replicate]
    split_ifs <;> rfl
  obtain ⟨sv, sl, sr, sc, sd⟩ := network_set_data _ hv _ hd 21846 0xFF0000 (by rw [hl]; omega)
  refine ⟨ho, ?_, ?_⟩
  · rw [network_get_data _ hv _ hd 0 (by rw [hl]; omega) 0 ho0]
    simp [hr, hz]
  · rw [network_get_data _ sv _ sd 0 (by rw [sl, hl]; omega) 0
      ((network_offset_set _ 21846 0xFF0000 0).trans ho0), sr]
    obtain ⟨g0, _, _, g, _⟩ := getD_set_three (List.replicate (bc.count * 3) 0) 2
      (0xFF &&& (0xFF0000 >>> 16)) (0xFF &&& (0xFF0000 >>> 8)) (0xFF &&& 0xFF0000)
      (by simp; omega)
    simp only [hr, Bool.false_eq_true, if_false, ho]
    rw [g 0 (by omega) (by omega) (by omega), g 1 (by omega) (by omega) (by omega), g0, hz, hz]
    decide

/-- C16: for a valid network bus with pixel count `n = _len` and every 32-bit
colour `c`: for `i < n`, `setPixelColor(i, c)` followed by `getPixelColor(i)`
returns the bytes the bus carries for that pixel, packed R,G,B, that is
`c & 0x00FFFFFF` on a 3-channel bus (with W in bits 24..31, that is `c` itself,
when the bus is RGBW), and the bus stays well formed; for `i >= n`,
`setPixelColor(i, c)` leaves the bus (hence the whole buffer) unchanged and
`getPixelColor(i)` returns 0. Every bus the constructor leaves valid is well
formed, has 3 channels and `_len = count`. -/
theorem network_set_get (b : BusNetwork) (hw : b.wellFormed = true) (c : Nat)
    (hc : c < 4294967296) :
    (∀ i, i < b._len →
      (b.setPixelColor i c).getPixelColor i
        = (if b._rgbw = true then c else c &&& 0x00FFFFFF) ∧
      (b.setPixelColor i c).wellFormed = true) ∧
    (∀ i, b._len ≤ i → b.setPixelColor i c = b ∧ b.getPixelColor i = 0) ∧
    (∀ (P : Platform) (bc : BusConfig), (BusNetwork.new P bc)._valid = true →
      (BusNetwork.new P bc).wellFormed = true ∧ (BusNetwork.new P bc)._rgbw = false ∧
      (BusNetwork.new P bc)._len = bc.count ∧ (BusNetwork.new P bc)._UDPchannels = 3) := by
  refine ⟨fun i hi => network_get_set_same b hw i c hi hc, ?_, ?_⟩
  · intro i hi
    have hn : i ≥ b._len := hi
    refine ⟨?_, ?_⟩
    · unfold BusNetwork.setPixelColor; simp [hn]
    · unfold BusNetwork.getPixelColor; simp [hn]
  · intro P bc hv
    obtain ⟨h1, h2, h3, h4, _⟩ := network_new_wellFormed P bc hv
    exact ⟨h1, h2, h3, h4⟩

/-- Witness for C16: a network bus of 10 pixels on the ESP32 build, colour
0x12345678 at index 7. -/
theorem network_set_get_witness :
    (smallNetworkExample.wellFormed = true ∧ 0x12345678 < 4294967296) ∧
    smallNetworkExample._len = 10 ∧
    (smallNetworkExample.setPixelColor 7 0x12345678).getPixelColor 7 = 0x345678 ∧
    (smallNetworkExample.setPixelColor 7 0x12345678).getPixelColor 7
      = (if smallNetworkExample._rgbw = true then 0x12345678 else 0x12345678 &&& 0x00FFFFFF) :=
  ⟨⟨by decide, by decide⟩, by decide, by decide,
    ((network_set_get smallNetworkExample (by decide) 0x12345678 (by decide)).1 7
      (by decide)).1⟩

/-- C19 as stated fails at the boundary: a network bus of 21846 pixels has
`n * channels` = 65538 > 65536, yet no in-range index wraps (the largest offset
is 21845 * 3 = 65535) and no write changes the colour read at another index. -/
theorem network_21846_pixels_do_not_wrap :
    boundaryNetworkExample._valid = true ∧ boundaryNetworkExample._len = 21846 ∧
    65536 < boundaryNetworkExample._len * boundaryNetworkExample._UDPchannels ∧
    ¬ (∃ pix, pix < boundaryNetworkExample._len ∧
        boundaryNetworkExample.offset pix ≠ pix * boundaryNetworkExample._UDPchannels) ∧
    ¬ (∃ i j c, i < boundaryNetworkExample._len ∧ j < boundaryNetworkExample._len ∧ i ≠ j ∧
        (boundaryNetworkExample.setPixelColor i c).getPixelColor j
          ≠ boundaryNetworkExample.getPixelColor j) := by
  have hv : boundaryNetworkExample._valid = true := by decide
  have hl : boundaryNetworkExample._len = 21846 := by decide
  have hch : boundaryNetworkExample._UDPchannels = 3 := by decide
  have hw : boundaryNetworkExample.wellFormed = true :=
    (network_new_wellFormed esp32 _ hv).1
  have hn : (boundaryNetworkExample._len - 1) * boundaryNetworkExample._UDPchannels < 65536 := by
    rw [hl, hch]; decide
  refine ⟨hv, hl, by rw [hl, hch]; decide, ?_, ?_⟩
  · rintro ⟨pix, hp, hne⟩
    exact hne (network_offset_eq _ hw hn pix hp)
  · rintro ⟨i, j, c, hi, hj, hij, hne⟩
    exact hne (network_frame _ hw hn i j c hi hj hij)

/-- C19, amended: for a valid network bus with pixel count `n = _len`, every byte
that `setPixelColor` and `getPixelColor` touch lies inside the
`n * channels` byte buffer, whatever `n` is. If `(n - 1) * channels < 65536`
(which `n * channels <= 65536` implies; `n <= 21846` for the 3-channel
layout), the 16-bit offset `pix * channels` does not wrap for any `pix < n`,
and for distinct `i, j < n` `setPixelColor(i, c)` leaves `getPixelColor(j)`
unchanged. For a 3-channel bus with `n >= 21847` the in-range index 21846 wraps
to offset 2, a byte of pixel 0; on a freshly constructed bus
`setPixelColor(21846, 0xFF0000)` changes `getPixelColor(0)` from 0 to 0x0000FF. -/
theorem network_offset_wrap_boundary (b : BusNetwork) (hw : b.wellFormed = true) :
    (∀ pix d k, b._data = some d → k ∈ b.touched pix → k < d.length) ∧
    (b._len * b._UDPchannels ≤ 65536 → (b._len - 1) * b._UDPchannels < 65536) ∧
    ((b._len - 1) * b._UDPchannels < 65536 →
      (∀ pix, pix < b._len → b.offset pix = pix * b._UDPchannels) ∧
      (∀ i j c, i < b._len → j < b._len → i ≠ j →
        (b.setPixelColor i c).getPixelColor j = b.getPixelColor j)) ∧
    (b._rgbw = false →
      (b._len ≤ 21846 ↔ (b._len - 1) * b._UDPchannels < 65536) ∧
      (21847 ≤ b._len →
        b.offset 21846 = 2 ∧ 2 ∈ b.touched 21846 ∧ 2 ∈ b.touched 0)) ∧
    (∀ (P : Platform) (bc : BusConfig), (BusNetwork.new P bc)._valid = true →
      21847 ≤ bc.count →
      (BusNetwork.new P bc).getPixelColor 0 = 0 ∧
      ((BusNetwork.new P bc).setPixelColor 21846 0xFF0000).getPixelColor 0 = 0x0000FF) := by
  obtain ⟨hv, hch, _⟩ := (network_wellFormed_iff b).1 hw
  refine ⟨fun pix d k hd hk => network_touched_in_bounds b hw pix d hd k hk, ?_, ?_, ?_, ?_⟩
  · intro h
    by_cases hr : b._rgbw = true
    · rw [if_pos hr] at hch; rw [hch] at h ⊢; omega
    · rw [if_neg hr] at hch; rw [hch] at h ⊢; omega
  · intro hn
    exact ⟨fun pix hp => network_offset_eq b hw hn pix hp,
      fun i j c hi hj hij => network_frame b hw hn i j c hi hj hij⟩
  · intro hr
    have hr2 : ¬ (b._rgbw = true) := by rw [hr]; exact Bool.false_ne_true
    rw [if_neg hr2] at hch
    refine ⟨by rw [hch]; omega, ?_⟩
    intro hl
    have h1 : ¬ (21846 ≥ b._len) := by omega
    have h0 : ¬ (0 ≥ b._len) := by omega
    have ho : b.offset 21846 = 2 := by unfold BusNetwork.offset; rw [hch]
    have ho0 : b.offset 0 = 0 := by unfold BusNetwork.offset; rw [hch]
    refine ⟨ho, ?_, ?_⟩
    · unfold BusNetwork.touched
      simp [hv, h1, ho]
    · unfold BusNetwork.touched
      simp [hv, h0, ho0]
  · intro P bc hv2 hc
    exact (network_fresh_alias P bc hv2 hc).2

/-- Witness for C19 (amended): the network bus of 10 pixels. -/
theorem network_offset_wrap_boundary_witness :
    smallNetworkExample.wellFormed = true ∧
    (smallNetworkExample._len - 1) * smallNetworkExample._UDPchannels < 65536 ∧
    (∀ pix, pix < smallNetworkExample._len →
      smallNetworkExample.offset pix = pix * smallNetworkExample._UDPchannels) ∧
    (smallNetworkExample.setPixelColor 3 0xFFFFFF).getPixelColor 4
      = smallNetworkExample.getPixelColor 4 :=
  ⟨by decide, by decide,
    ((network_offset_wrap_boundary smallNetworkExample (by decide)).2.2.1 (by decide)).1,
    by decide⟩

/-! ## Pin claims of failed constructions -/

theorem allocatePin_true (P : Platform) (pm : PinManager) (g : Nat) (t : PinOwner)
    (h : (pm.allocatePin P g t).2 = true) :
    P.isPinOk g = true ∧ pm.isPinAllocated g = false ∧
    (pm.allocatePin P g t).1 = { pm with claims := (g, t) :: pm.claims } := by
  unfold PinManager.allocatePin at h ⊢
  by_cases h1 : P.isPinOk g = true
  · by_cases h2 : pm.isPinAllocated g = true
    · simp [h1, h2] at h
    · simp [h1, h2]
  · simp [h1] at h

theorem allocatePin_false (P : Platform) (pm : PinManager) (g : Nat) (t : PinOwner)
    (h : (pm.allocatePin P g t).2 = false) :
    (pm.allocatePin P g t).1 = pm := by
  unfold PinManager.allocatePin at h ⊢
  by_cases h1 : P.isPinOk g = true
  · by_cases h2 : pm.isPinAllocated g = true
    · simp [h1, h2]
    · simp [h1, h2] at h
  · simp [h1]

theorem filter_unclaimed (claims : List (Nat × PinOwner)) (g : Nat)
    (h : ∀ x ∈ claims, x.1 ≠ g) :
    claims.filter (fun cl => cl.1 != g) = claims := by
  rw [List.filter_eq_self]
  intro x hx
  simpa using h x hx

theorem not_allocated_iff (pm : PinManager) (g : Nat) :
    pm.isPinAllocated g = false ↔ ∀ x ∈ pm.claims, x.1 ≠ g := by
  unfold PinManager.isPinAllocated
  simp

theorem deallocatePin_255 (P : Platform) (pm : PinManager) (t : PinOwner) :
    pm.deallocatePin P 255 t = pm := by
  unfold PinManager.deallocatePin
  simp

theorem release_after_acquire (P : Platform) (pm : PinManager) (g : Nat) (t : PinOwner)
    (h255 : P.isPinOk 255 = false) (h : (pm.allocatePin P g t).2 = true) :
    (pm.allocatePin P g t).1.deallocatePin P g t = pm := by
  obtain ⟨hok, hfree, he⟩ := allocatePin_true P pm g t h
  have hg : g ≠ 255 := by
    intro e; rw [e, h255] at hok; exact Bool.noConfusion hok
  have hf := filter_unclaimed pm.claims g ((not_allocated_iff pm g).1 hfree)
  rw [he]
  unfold PinManager.deallocatePin PinManager.ownerOf
  simp [hg, hok, hf]

/-- C11 fails on the code at these inputs: a single-wire RGB descriptor on data
pin 2 (and a dual-wire one on pins 2 and 4), constructed on an empty ledger
where the driver factory finds no driver (`I_NONE`) or the driver instantiation
returns null. The bus is invalid, but the constructor returns without
`cleanup()`: the pins stay claimed, the ledger differs from the one before the
construction, and a new acquisition of pin 2 fails. Only a later `cleanup()`
(the destructor) restores the ledger. -/
theorem busDigital_no_driver_keeps_pins :
    ((BusDigital.new esp32NoDriver State.init.pinManager conflictConfig 0).2._valid = false ∧
      (BusDigital.new esp32NoDriver State.init.pinManager conflictConfig 0).2._iType = I_NONE ∧
      (BusDigital.new esp32NoDriver State.init.pinManager conflictConfig 0).1.claims
        = [(2, PinOwner.BusDigital)] ∧
      (BusDigital.new esp32NoDriver State.init.pinManager conflictConfig 0).1
        ≠ State.init.pinManager ∧
      ((BusDigital.new esp32NoDriver State.init.pinManager conflictConfig 0).1.allocatePin
        esp32NoDriver 2 PinOwner.BusDigital).2 = false ∧
      ((BusDigital.new esp32NoDriver State.init.pinManager conflictConfig 0).2.cleanup
        esp32NoDriver (BusDigital.new esp32NoDriver State.init.pinManager conflictConfig 0).1).1
        = State.init.pinManager) ∧
    ((BusDigital.new esp32NoMemory State.init.pinManager conflictConfig 0).2._valid = false ∧
      (BusDigital.new esp32NoMemory State.init.pinManager conflictConfig 0).2._busPtr = none ∧
      (BusDigital.new esp32NoMemory State.init.pinManager conflictConfig 0).1.claims
        = [(2, PinOwner.BusDigital)] ∧
      (BusDigital.new esp32NoMemory State.init.pinManager conflictConfig 0).1
        ≠ State.init.pinManager) ∧
    ((BusDigital.new esp32NoDriver State.init.pinManager twoWireConfig 0).2._valid = false ∧
      (BusDigital.new esp32NoDriver State.init.pinManager twoWireConfig 0).1.claims
        = [(4, PinOwner.BusDigital), (2, PinOwner.BusDigital)]) := by
  decide

/-- C12: for a dual-wire addressable descriptor whose first pin is acquired and
whose second pin cannot be acquired, the constructed `BusDigital` is invalid
and the ledger afterwards equals the ledger before: the first pin is free
again and a new acquisition of it, under any owner tag, succeeds. Pin number
255 is the "no pin" value and not a valid pin. -/
theorem second_pin_failure_releases_first (P : Platform) (pm : PinManager) (bc : BusConfig)
    (nr : Nat) (h255 : P.isPinOk 255 = false) (hd : IS_DIGITAL bc.type = true)
    (hc : bc.count ≠ 0) (h2 : IS_2PIN bc.type = true)
    (h0 : (pm.allocatePin P (bc.pins.getD 0 255) PinOwner.BusDigital).2 = true)
    (h1 : ((pm.allocatePin P (bc.pins.getD 0 255) PinOwner.BusDigital).1.allocatePin P
      (bc.pins.getD 1 255) PinOwner.BusDigital).2 = false) :
    (BusDigital.new P pm bc nr).2._valid = false ∧
    (BusDigital.new P pm bc nr).1 = pm ∧
    (BusDigital.new P pm bc nr).1.isPinAllocated (bc.pins.getD 0 255) = false ∧
    (∀ tag, ((BusDigital.new P pm bc nr).1.allocatePin P (bc.pins.getD 0 255) tag).2 = true) := by
  obtain ⟨hok, hfree, _⟩ := allocatePin_true P pm _ _ h0
  have e1 := allocatePin_false P _ _ _ h1
  have hrel := release_after_acquire P pm _ PinOwner.BusDigital h255 h0
  have hc2 : (bc.count == 0) = false := by simpa using hc
  have hnew : BusDigital.new P pm bc nr
      = BusDigital.cleanup P (pm.allocatePin P (bc.pins.getD 0 255) PinOwner.BusDigital).1
          { _type := bc.type, _start := bc.start,
            _pins := [bc.pins.getD 0 255, 255] } := by
    unfold BusDigital.new
    simp only [hd, hc2, h2, h0, h1, e1, Bool.not_true, Bool.or_self, Bool.not_false,
      Bool.false_eq_true, if_false, if_true, List.set_cons_zero]
  have hcl : (BusDigital.new P pm bc nr).1 = pm := by
    rw [hnew]
    unfold BusDigital.cleanup
    simp only [List.getD_cons_succ, List.getD_cons_zero, deallocatePin_255, hrel]
  refine ⟨by rw [hnew]; rfl, hcl, by rw [hcl]; exact hfree, ?_⟩
  intro tag
  rw [hcl]
  unfold PinManager.allocatePin
  simp only [hok, hfree, Bool.not_true, Bool.false_eq_true, if_false]

/-- Witness for C12: a dual-wire descriptor on pins 4 and 2 added after the
single bus that owns pin 2. -/
theorem second_pin_failure_releases_first_witness :
    (esp32.isPinOk 255 = false ∧ IS_DIGITAL secondPinTakenConfig.type = true ∧
      secondPinTakenConfig.count ≠ 0 ∧ IS_2PIN secondPinTakenConfig.type = true) ∧
    (BusDigital.new esp32 singleBusExample.pinManager secondPinTakenConfig 1).2._valid = false ∧
    (BusDigital.new esp32 singleBusExample.pinManager secondPinTakenConfig 1).1
      = singleBusExample.pinManager :=
  ⟨⟨by decide, by decide, by decide, by decide⟩,
    (second_pin_failure_releases_first esp32 singleBusExample.pinManager secondPinTakenConfig 1
      (by decide) (by decide) (by decide) (by decide) (by decide) (by decide)).1,
    (second_pin_failure_releases_first esp32 singleBusExample.pinManager secondPinTakenConfig 1
      (by decide) (by decide) (by decide) (by decide) (by decide) (by decide)).2.1⟩

theorem alloc_owns (P : Platform) (bc : BusConfig) (base : List (Nat × PinOwner)) (n : Nat) :
    ∀ (i : Nat) (pm : PinManager) (b : BusPwm), i + n ≤ b._pins.length →
      BusPwm.Owns P base pm.claims b._pins 0 i →
      BusPwm.Owns P base (BusPwm.allocateLoop P bc i n pm b).1.claims
        (BusPwm.allocateLoop P bc i n pm b).2.1._pins 0 (i + n) ∧
      (BusPwm.allocateLoop P bc i n pm b).1.ledc = pm.ledc ∧
      (BusPwm.allocateLoop P bc i n pm b).2.1._ledcStart = b._ledcStart ∧
      (BusPwm.allocateLoop P bc i n pm b).2.1._valid = b._valid := by
  induction n with
  | zero => intro i pm b _ h; exact ⟨h, rfl, rfl, rfl⟩
  | succ n ih =>
    intro i pm b hlen hown
    simp only [BusPwm.allocateLoop]
    by_cases hs : (pm.allocatePin P (bc.pins.getD i 255) PinOwner.BusPwm).2 = true
    · obtain ⟨hok, hfree, he⟩ := allocatePin_true P pm _ _ hs
      have hi : i < b._pins.length := by omega
      rw [if_neg (by rw [hs]; simp)]
      obtain ⟨xs, hcl, h2, h3⟩ := hown
      have hnew : BusPwm.Owns P base
          (pm.allocatePin P (bc.pins.getD i 255) PinOwner.BusPwm).1.claims
          (b._pins.set i (bc.pins.getD i 255)) 0 (i + 1) := by
        refine ⟨(bc.pins.getD i 255, PinOwner.BusPwm) :: xs, ?_, ?_, ?_⟩
        · rw [he]; simp [hcl]
        · intro x hx
          rcases List.mem_cons.1 hx with rfl | hx
          · exact ⟨rfl, hok, i, Nat.zero_le _, Nat.lt_succ_self _, by
              simp [List.getElem?_set, hi]⟩
          · obtain ⟨a1, a2, j, j0, j1, j2⟩ := h2 x hx
            refine ⟨a1, a2, j, j0, by omega, ?_⟩
            rw [List.getElem?_set_ne (by omega)]
            exact j2
        · intro j p hj hp x hx
          by_cases hji : i = j
          · subst hji
            rw [List.getElem?_set_self hi] at hj
            have e := Option.some.inj hj
            rw [← e]
            exact (not_allocated_iff pm _).1 hfree x (by rw [hcl]; simp [hx])
          · rw [List.getElem?_set_ne hji] at hj
            exact h3 j p hj hp x hx
      have h := ih (i + 1) (pm.allocatePin P (bc.pins.getD i 255) PinOwner.BusPwm).1
        { b with _pins := b._pins.set i (bc.pins.getD i 255) } (by simp; omega) hnew
      obtain ⟨k1, k2, k3, k4⟩ := h
      refine ⟨by rw [show i + (n + 1) = i + 1 + n by omega]; exact k1, ?_, k3, k4⟩
      rw [k2, he]
    · have hf : (pm.allocatePin P (bc.pins.getD i 255) PinOwner.BusPwm).2 = false := by
        simpa using hs
      rw [if_pos (by rw [hf]; rfl)]
      rw [allocatePin_false P pm _ _ hf]
      obtain ⟨xs, hcl, h2, h3⟩ := hown
      refine ⟨⟨xs, hcl, ?_, h3⟩, rfl, rfl, rfl⟩
      intro x hx
      obtain ⟨a1, a2, j, j0, j1, j2⟩ := h2 x hx
      exact ⟨a1, a2, j, j0, by omega, j2⟩

theorem owner_check_passes (base xs : List (Nat × PinOwner)) (ledc : List Bool)
    (p : Nat) (hxs : ∀ x ∈ xs, x.2 = PinOwner.BusPwm) (hbase : ∀ x ∈ base, x.1 ≠ p) :
    (PinManager.ownerOf { claims := xs ++ base, ledc := ledc } p != PinOwner.None &&
      PinManager.ownerOf { claims := xs ++ base, ledc := ledc } p != PinOwner.BusPwm) = false := by
  unfold PinManager.ownerOf
  simp only []
  cases hf : List.find? (fun cl => cl.1 == p) (xs ++ base) with
  | none => simp
  | some cl =>
    have hm := List.mem_of_find?_eq_some hf
    have hp := List.find?_some hf
    rcases List.mem_append.1 hm with h | h
    · simp [hxs cl h]
    · exact absurd (by simpa using hp) (hbase cl h)

theorem dealloc_owns (P : Platform) (h255 : P.isPinOk 255 = false) (pins : List Nat)
    (base : List (Nat × PinOwner)) (ledc : List Bool) (n : Nat) :
    ∀ (i : Nat) (claims : List (Nat × PinOwner)), i + n ≤ pins.length →
      BusPwm.Owns P base claims pins i (i + n) →
      BusPwm.deallocateLoop P pins i n { claims := claims, ledc := ledc }
        = some { claims := base, ledc := ledc } := by
  induction n with
  | zero =>
    intro i claims _ hown
    obtain ⟨xs, hcl, h2, _⟩ := hown
    have hxs : xs = [] := by
      cases xs with
      | nil => rfl
      | cons x rest =>
        obtain ⟨_, _, j, j0, j1, _⟩ := h2 x (List.mem_cons_self _ _)
        omega
    simp [BusPwm.deallocateLoop, hcl, hxs]
  | succ n ih =>
    intro i claims hlen hown
    obtain ⟨xs, hcl, h2, h3⟩ := hown
    have hi : i < pins.length := by omega
    simp only [BusPwm.deallocateLoop, List.getElem?_eq_getElem hi]
    have hpi : pins[i]? = some pins[i] := List.getElem?_eq_getElem hi
    by_cases hnoop : pins[i] = 255 ∨ P.isPinOk pins[i] = false
    · have hd : PinManager.deallocatePin P { claims := claims, ledc := ledc } pins[i]
          PinOwner.BusPwm = { claims := claims, ledc := ledc } := by
        unfold PinManager.deallocatePin
        rcases hnoop with h | h
        · simp [h]
        · simp [h]
      rw [hd, show i + (n + 1) = i + 1 + n by omega] at *
      apply ih (i + 1) claims (by omega)
      refine ⟨xs, hcl, ?_, h3⟩
      intro x hx
      obtain ⟨a1, a2, j, j0, j1, j2⟩ := h2 x hx
      refine ⟨a1, a2, j, ?_, by omega, j2⟩
      by_contra hlt
      have hj : j = i := by omega
      rw [hj, hpi] at j2
      have e := Option.some.inj j2
      rcases hnoop with h | h
      · rw [← e, h, h255] at a2; exact Bool.noConfusion a2
      · rw [← e, h] at a2; exact Bool.noConfusion a2
    · have hne : pins[i] ≠ 255 := fun h => hnoop (Or.inl h)
      have hok : P.isPinOk pins[i] = true := by
        cases hq : P.isPinOk pins[i] with
        | true => rfl
        | false => exact absurd (Or.inr hq) hnoop
      have hb : ∀ x ∈ base, x.1 ≠ pins[i] := h3 i _ hpi hok
      have hchk := owner_check_passes base xs ledc pins[i] (fun x hx => (h2 x hx).1) hb
      have hd : PinManager.deallocatePin P { claims := claims, ledc := ledc } pins[i]
          PinOwner.BusPwm
          = { claims := xs.filter (fun cl => cl.1 != pins[i]) ++ base, ledc := ledc } := by
        unfold PinManager.deallocatePin
        rw [hcl]
        simp only [hchk, hok, Bool.not_true, Bool.false_eq_true, if_false, List.filter_append,
          filter_unclaimed base _ hb]
        rw [if_neg (by simpa using hne)]
      rw [hd]
      apply ih (i + 1) _ (by omega)
      refine ⟨_, rfl, ?_, h3⟩
      intro x hx
      obtain ⟨hx1, hx2⟩ := List.mem_filter.1 hx
      obtain ⟨a1, a2, j, j0, j1, j2⟩ := h2 x hx1
      refine ⟨a1, a2, j, ?_, by omega, j2⟩
      by_contra hlt
      have hj : j = i := by omega
      rw [hj, hpi] at j2
      have e := Option.some.inj j2
      simp [← e] at hx2

theorem ledcMark_succ (l : List Bool) (pos n : Nat) (v : Bool) :
    PinManager.ledcMark l pos (n + 1) v = (PinManager.ledcMark l pos n v).set (pos + n) v := by
  unfold PinManager.ledcMark
  rw [List.range_succ, List.foldl_append]
  rfl

theorem ledcMark_get (l : List Bool) (pos : Nat) (v : Bool) (n k : Nat) :
    (PinManager.ledcMark l pos n v).length = l.length ∧
    (PinManager.ledcMark l pos n v)[k]?
      = if pos ≤ k ∧ k < pos + n ∧ k < l.length then some v else l[k]? := by
  induction n with
  | zero =>
    refine ⟨rfl, ?_⟩
    have h : ¬ (pos ≤ k ∧ k < pos + 0 ∧ k < l.length) := by omega
    rw [if_neg h]
    rfl
  | succ n ih =>
    obtain ⟨ihl, ihg⟩ := ih
    rw [ledcMark_succ]
    refine ⟨by rw [List.length_set, ihl], ?_⟩
    rw [List.getElem?_set, ihg, ihl]
    by_cases hk : pos + n = k
    · subst hk
      by_cases hlt : pos + n < l.length
      · simp [hlt]
      · have h1 : ¬ (pos ≤ pos + n ∧ pos + n < pos + n ∧ pos + n < l.length) := by omega
        have h2 : ¬ (pos ≤ pos + n ∧ pos + n < pos + (n + 1) ∧ pos + n < l.length) := by omega
        simp [hlt, h1, h2]
        omega
    · simp only [hk, if_false]
      by_cases hin : pos ≤ k ∧ k < pos + n ∧ k < l.length
      · have h2 : pos ≤ k ∧ k < pos + (n + 1) ∧ k < l.length := by omega
        rw [if_pos hin, if_pos h2]
      · have h2 : ¬ (pos ≤ k ∧ k < pos + (n + 1) ∧ k < l.length) := by omega
        rw [if_neg hin, if_neg h2]

theorem ledcMark_out (l : List Bool) (pos n : Nat) (v : Bool) (h : l.length ≤ pos) :
    PinManager.ledcMark l pos n v = l := by
  apply List.ext_getElem?
  intro k
  rw [(ledcMark_get l pos v n k).2]
  have h1 : ¬ (pos ≤ k ∧ k < pos + n ∧ k < l.length) := by omega
  rw [if_neg h1]

theorem ledcFree_get (l : List Bool) (pos n : Nat) (h : PinManager.ledcFree l pos n = true)
    (k : Nat) (h1 : pos ≤ k) (h2 : k < pos + n) : l[k]? = some false := by
  unfold PinManager.ledcFree at h
  rw [List.all_eq_true] at h
  have hj := h (k - pos) (List.mem_range.2 (by omega))
  rw [show pos + (k - pos) = k by omega, List.getD_eq_getElem?_getD] at hj
  cases hk : l[k]? with
  | none => rw [hk] at hj; exact absurd hj (by decide)
  | some x =>
    rw [hk] at hj
    cases x with
    | false => rfl
    | true => exact absurd hj (by decide)

theorem ledcMark_restore (l : List Bool) (pos n : Nat)
    (h : PinManager.ledcFree l pos n = true) :
    PinManager.ledcMark (PinManager.ledcMark l pos n true) pos n false = l := by
  apply List.ext_getElem?
  intro k
  rw [(ledcMark_get _ pos false n k).2, (ledcMark_get l pos true n k).1,
    (ledcMark_get l pos true n k).2]
  by_cases hin : pos ≤ k ∧ k < pos + n ∧ k < l.length
  · rw [if_pos hin, ledcFree_get l pos n h k hin.1 hin.2.1]
  · rw [if_neg hin, if_neg hin]

theorem ledcStep_facts (P : Platform) (pm : PinManager) (bc : BusConfig)
    (hlen : pm.ledc.length ≤ 255) :
    (BusPwm.ledcStep P pm bc).1.claims = pm.claims ∧
    (P.esp8266 = true → (BusPwm.ledcStep P pm bc).1.ledc = pm.ledc) ∧
    (P.esp8266 = false →
      PinManager.ledcMark (BusPwm.ledcStep P pm bc).1.ledc (BusPwm.ledcStep P pm bc).2
        (NUM_PWM_PINS bc.type) false = pm.ledc) := by
  unfold BusPwm.ledcStep
  by_cases he : P.esp8266 = true
  · rw [if_pos he]
    exact ⟨rfl, fun _ => rfl, fun h => by rw [he] at h; exact Bool.noConfusion h⟩
  · rw [if_neg he]
    unfold PinManager.allocateLedc
    cases hf : List.find? (fun pos => PinManager.ledcFree pm.ledc pos (NUM_PWM_PINS bc.type))
        (List.range pm.ledc.length) with
    | none =>
      exact ⟨rfl, fun h => absurd h he, fun _ => ledcMark_out _ _ _ _ hlen⟩
    | some pos =>
      have hfree := List.find?_some hf
      exact ⟨rfl, fun h => absurd h he, fun _ => ledcMark_restore _ _ _ hfree⟩

theorem deallocatePins_restores (P : Platform) (h255 : P.isPinOk 255 = false)
    (pm PM : PinManager) (B : BusPwm)
    (hown : BusPwm.Owns P pm.claims PM.claims B._pins 0 (NUM_PWM_PINS B._type))
    (hl : NUM_PWM_PINS B._type ≤ B._pins.length)
    (he : P.esp8266 = true → PM.ledc = pm.ledc)
    (hne : P.esp8266 = false →
      PinManager.ledcMark PM.ledc B._ledcStart (NUM_PWM_PINS B._type) false = pm.ledc) :
    B.deallocatePins P PM = some pm := by
  obtain ⟨c, l⟩ := PM
  have hd := dealloc_owns P h255 B._pins pm.claims l (NUM_PWM_PINS B._type) 0 c
    (by omega) (by rw [Nat.zero_add]; exact hown)
  unfold BusPwm.deallocatePins
  simp only []
  rw [hd]
  simp only []
  by_cases hesp : P.esp8266 = true
  · have h1 : l = pm.ledc := he hesp
    rw [if_pos hesp, h1]
  · have hf : P.esp8266 = false := by simpa using hesp
    have h1 : PinManager.ledcMark l B._ledcStart (NUM_PWM_PINS B._type) false = pm.ledc :=
      hne hf
    rw [if_neg hesp]
    unfold PinManager.deallocateLedc
    simp only [h1]

theorem BusPwm.new_eq (P : Platform) (pm : PinManager) (bc : BusConfig) :
    BusPwm.new P pm bc =
      if (!IS_PWM bc.type) = true then some (pm, BusPwm.blank bc 255)
      else if (!P.esp8266 && (BusPwm.ledcStep P pm bc).2 == 255) = true then
        ((BusPwm.blank bc (BusPwm.ledcStep P pm bc).2).deallocatePins P
          (BusPwm.ledcStep P pm bc).1).map
          (fun q => (q, BusPwm.blank bc (BusPwm.ledcStep P pm bc).2))
      else if (!(BusPwm.pinStep P pm bc).2.2) = true then
        ((BusPwm.pinStep P pm bc).2.1.deallocatePins P (BusPwm.pinStep P pm bc).1).map
          (fun q => (q, (BusPwm.pinStep P pm bc).2.1))
      else
        some ((BusPwm.pinStep P pm bc).1,
          { (BusPwm.pinStep P pm bc).2.1 with reversed := bc.reversed, _valid := true }) := by
  rfl

theorem blank_owns (P : Platform) (h255 : P.isPinOk 255 = false) (bc : BusConfig) (s hi : Nat)
    (base : List (Nat × PinOwner)) :
    BusPwm.Owns P base base (BusPwm.blank bc s)._pins 0 hi := by
  refine ⟨[], rfl, fun x hx => absurd hx (List.not_mem_nil x), ?_⟩
  intro j p hj hp
  have h5 : (BusPwm.blank bc s)._pins = [255, 255, 255, 255, 255] := rfl
  rw [h5] at hj
  have hp255 : p = 255 := by
    rcases j with _ | _ | _ | _ | _ | j <;> simp at hj <;> omega
  rw [hp255, h255] at hp
  exact Bool.noConfusion hp

/-- C13: for every PWM descriptor and every initial ledger: whenever the
`BusPwm` constructor leaves the bus invalid, the ledger afterwards is exactly
the ledger before. In particular, if the channel slots were reserved (or the
platform has none) and the acquisition of some pin `k` fails, the bus is
invalid, the pins `0..k-1` it had acquired and the channel-slot reservation are
released, and nothing else is: a pin is recorded in the bus's own list only
after its acquisition succeeded, so every valid pin in that list was free
before the constructor ran. Pin number 255 is the "no pin" value and not a
valid pin; the channel-slot pool has at most 255 slots. -/
theorem pwm_failure_restores_ledger (P : Platform) (pm : PinManager) (bc : BusConfig)
    (h255 : P.isPinOk 255 = false) (hlen : pm.ledc.length ≤ 255) :
    ∃ pm2 b, BusPwm.new P pm bc = some (pm2, b) ∧
      (b._valid = false → pm2 = pm) ∧
      (IS_PWM bc.type = true →
        (P.esp8266 = true ∨ (BusPwm.ledcStep P pm bc).2 ≠ 255) →
        (BusPwm.pinStep P pm bc).2.2 = false →
        b._valid = false ∧ pm2 = pm ∧ b._pins = (BusPwm.pinStep P pm bc).2.1._pins) ∧
      (∀ (j p : Nat), b._pins[j]? = some p → P.isPinOk p = true →
        pm.isPinAllocated p = false) := by
  obtain ⟨l1, l2, l3⟩ := ledcStep_facts P pm bc hlen
  have hb0 := blank_owns P h255 bc (BusPwm.ledcStep P pm bc).2
  have free_of : ∀ (pins : List Nat) (hi : Nat), BusPwm.Owns P pm.claims pm.claims pins 0 hi ∨
      (∃ cl, BusPwm.Owns P pm.claims cl pins 0 hi) →
      ∀ (j p : Nat), pins[j]? = some p → P.isPinOk p = true → pm.isPinAllocated p = false := by
    intro pins hi h j p hj hp
    rw [not_allocated_iff]
    rcases h with ⟨_, _, _, h3⟩ | ⟨_, _, _, _, h3⟩
    · exact h3 j p hj hp
    · exact h3 j p hj hp
  rw [BusPwm.new_eq]
  by_cases hp : IS_PWM bc.type = true
  · have hn := NUM_PWM_PINS_le bc.type hp
    rw [if_neg (by rw [hp]; simp)]
    obtain ⟨k1, k2, k3⟩ := BusPwm.allocateLoop_keeps P bc (NUM_PWM_PINS bc.type) 0
      (BusPwm.ledcStep P pm bc).1 (BusPwm.blank bc (BusPwm.ledcStep P pm bc).2)
    obtain ⟨o1, o2, o3, o4⟩ := alloc_owns P bc pm.claims (NUM_PWM_PINS bc.type) 0
      (BusPwm.ledcStep P pm bc).1 (BusPwm.blank bc (BusPwm.ledcStep P pm bc).2)
      (by show 0 + NUM_PWM_PINS bc.type ≤ 5; omega) (by rw [l1]; exact hb0 0 pm.claims)
    rw [Nat.zero_add] at o1
    have hps : BusPwm.allocateLoop P bc 0 (NUM_PWM_PINS bc.type) (BusPwm.ledcStep P pm bc).1
        (BusPwm.blank bc (BusPwm.ledcStep P pm bc).2) = BusPwm.pinStep P pm bc := rfl
    rw [hps] at k1 k2 k3 o1 o2 o3 o4
    have k1b : (BusPwm.pinStep P pm bc).2.1._pins.length = 5 := k1
    have k2b : (BusPwm.pinStep P pm bc).2.1._type = bc.type := k2
    have o3b : (BusPwm.pinStep P pm bc).2.1._ledcStart = (BusPwm.ledcStep P pm bc).2 := o3
    have o4b : (BusPwm.pinStep P pm bc).2.1._valid = false := o4
    have hfailed : (BusPwm.pinStep P pm bc).2.1.deallocatePins P (BusPwm.pinStep P pm bc).1
        = some pm := by
      apply deallocatePins_restores P h255 pm
      · rw [k2b]; exact o1
      · rw [k2b, k1b]; exact hn.2
      · intro he; rw [o2]; exact l2 he
      · intro he; rw [o2, o3b, k2b]; exact l3 he
    have hblank : (BusPwm.blank bc (BusPwm.ledcStep P pm bc).2).deallocatePins P
        (BusPwm.ledcStep P pm bc).1 = some pm := by
      apply deallocatePins_restores P h255 pm
      · rw [l1]; exact hb0 _ pm.claims
      · show NUM_PWM_PINS bc.type ≤ 5; exact hn.2
      · exact l2
      · exact l3
    by_cases hled : (!P.esp8266 && (BusPwm.ledcStep P pm bc).2 == 255) = true
    · rw [if_pos hled, hblank]
      refine ⟨pm, _, rfl, fun _ => rfl, ?_, free_of _ 0 (Or.inl (hb0 0 pm.claims))⟩
      intro _ h _
      simp only [Bool.and_eq_true, Bool.not_eq_true', beq_iff_eq] at hled
      rcases h with h | h
      · rw [hled.1] at h; exact Bool.noConfusion h
      · exact absurd hled.2 h
    · rw [if_neg hled]
      by_cases hfail : (BusPwm.pinStep P pm bc).2.2 = false
      · rw [if_pos (by rw [hfail]; rfl), hfailed]
        exact ⟨pm, _, rfl, fun _ => rfl, fun _ _ _ => ⟨o4b, rfl, rfl⟩,
          free_of _ _ (Or.inr ⟨_, o1⟩)⟩
      · rw [if_neg (by simpa using hfail)]
        refine ⟨_, _, rfl, fun h => ?_, fun _ _ h => absurd h hfail,
          free_of _ _ (Or.inr ⟨_, o1⟩)⟩
        exact absurd h (by simp)
  · have hq : IS_PWM bc.type = false := by simpa using hp
    rw [if_pos (by rw [hq]; rfl)]
    exact ⟨pm, _, rfl, fun _ => rfl, fun h => absurd h hp,
      free_of _ 0 (Or.inl (blank_owns P h255 bc 255 0 pm.claims))⟩

/-- Witness for C13: a 2-channel PWM descriptor on pins 13 and 5 while another PWM
bus owns pins 4, 5 and 12: the acquisition of its second pin (k = 1) fails, pin
13 and the channel slots are released, pin 5 stays with its owner. -/
theorem pwm_failure_restores_ledger_witness :
    (esp32.isPinOk 255 = false ∧ pwmOwnerExample.pinManager.ledc.length ≤ 255) ∧
    pwmOwnerExample.pinManager.ownerOf 5 = PinOwner.BusPwm ∧
    (BusPwm.pinStep esp32 pwmOwnerExample.pinManager pwmConflictConfig).2.2 = false ∧
    (BusPwm.pinStep esp32 pwmOwnerExample.pinManager pwmConflictConfig).1.claims
      = (13, PinOwner.BusPwm) :: pwmOwnerExample.pinManager.claims ∧
    (BusPwm.new esp32 pwmOwnerExample.pinManager pwmConflictConfig).map
      (fun r => (decide (r.1 = pwmOwnerExample.pinManager), r.2._valid, r.2._pins))
      = some (true, false, [13, 255, 255, 255, 255]) ∧
    ∃ pm2 b, BusPwm.new esp32 pwmOwnerExample.pinManager pwmConflictConfig = some (pm2, b) ∧
      (b._valid = false → pm2 = pwmOwnerExample.pinManager) :=
  ⟨⟨by decide, by decide⟩, by decide, by decide, by decide, by decide,
    (pwm_failure_restores_ledger esp32 pwmOwnerExample.pinManager pwmConflictConfig
      (by decide) (by decide)).elim
      (fun pm2 h => h.elim (fun b hb => ⟨pm2, b, hb.1, hb.2.1⟩))⟩

end WLED
